import Mathlib

/-!
# Verification of the reactphysics3d collision-detection core

Shallow embedding of `src/engine/OverlappingPairs.cpp` and
`src/systems/BroadPhaseSystem.cpp` (repository SlavicPotato/reactphysics3d).

The overlapping-pair registry keeps its live pairs tightly packed in a single
contiguous buffer (structure-of-arrays in C++).  We model the live region
(slots `0 .. mNbPairs-1`) as a Lean `List PairData`, so `mNbPairs` is the list
length and "no unused slots between index 0 and the total count" is structural.
The `Map<uint64, uint64>` container (`containers/Map.h`, not part of `src/`)
is modelled as a lookup function together with its entry count, with the usual
map semantics for `add`/`remove`/`containsKey`/`size`.
-/

namespace RP3D

/-- Model of the `Map<uint64,uint64>` container used for
`mMapPairIdToPairIndex`: a lookup function plus its entry count. -/
structure NatMap where
  find : Nat → Option Nat
  size : Nat

/-- `Map::containsKey`. -/
def NatMap.contains (m : NatMap) (k : Nat) : Bool := (m.find k).isSome

/-- `Map::add` (key overwritten if present; a fresh key grows the size). -/
def NatMap.add (m : NatMap) (k v : Nat) : NatMap :=
  { find := fun k2 => if k2 = k then some v else m.find k2,
    size := if (m.find k).isSome then m.size else m.size + 1 }

/-- `Map::remove` (removing a present key shrinks the size). -/
def NatMap.remove (m : NatMap) (k : Nat) : NatMap :=
  { find := fun k2 => if k2 = k then none else m.find k2,
    size := if (m.find k).isSome then m.size - 1 else m.size }

/-- The empty map (freshly constructed `Map`). -/
def NatMap.empty : NatMap := { find := fun _ => none, size := 0 }

/-- Modelled from the spec: `LastFrameCollisionInfo` (declared in
`OverlappingPairs.h`, which is not under `src/`) carries persisted
warm-start data plus an obsolescence flag; only the flag matters for the
eviction discipline, so the model keeps just `isObsolete`. -/
structure LastFrameCollisionInfo where
  isObsolete : Bool
deriving Repr, DecidableEq, Inhabited

/-- Modelled from the spec: the `LastFrameCollisionInfo` default constructor
creates a fresh entry that is not yet obsolete (a fresh entry must survive
the next sweep, §4.3 of the spec). -/
def LastFrameCollisionInfo.init : LastFrameCollisionInfo := { isObsolete := false }

/-- One slot of the pair registry: the fields stored (structure-of-arrays in
C++) for a single overlapping pair at one index.  The per-feature cache
`Map<ShapeIdPair, LastFrameCollisionInfo*>` is modelled as an association
list keyed by the ordered feature-id pair. -/
structure PairData where
  pairId : Nat
  pairBroadPhaseId1 : Int
  pairBroadPhaseId2 : Int
  proxyShape1 : Nat
  proxyShape2 : Nat
  lastFrameCollisionInfos : List ((Nat × Nat) × LastFrameCollisionInfo)
  needToTestOverlap : Bool
  isActive : Bool
deriving Repr, DecidableEq, Inhabited

/-- A proxy shape as seen by the registry: its entity and its broad-phase
node id (`-1` when untracked). -/
structure ProxyShape where
  entity : Nat
  broadPhaseId : Int
deriving Repr, DecidableEq, Inhabited

/-- State of `OverlappingPairs`.  `pairs` holds the live slots
`0 .. mNbPairs-1` of the backing buffer, so `mNbPairs = pairs.length`.
`shapeIsConvex` is the (constant) environment
`mProxyShapeComponents.getCollisionShape(entity)->isConvex()`. -/
structure OverlappingPairs where
  pairs : List PairData
  mConcavePairsStartIndex : Nat
  mMapPairIdToPairIndex : NatMap
  shapeIsConvex : Nat → Bool

/-- Read the slot at index `i` of the live region. -/
def getSlot (ps : List PairData) (i : Nat) : PairData := ps.getD i default

/-- Write the slot at index `i`.  The C++ buffer has capacity beyond
`mNbPairs`; a write at `i = ps.length` (done by `prepareAddPair`) lands in
that spare capacity, which in the list model extends the live region. -/
def writeSlot (ps : List PairData) (i : Nat) (p : PairData) : List PairData :=
  if i < ps.length then ps.set i p else ps ++ [p]

/-- Derived classification of a stored pair: convex vs convex exactly when
both proxy shapes have convex collision shapes
(`collisionShape1->isConvex() && collisionShape2->isConvex()`). -/
def isConvexVsConvexPair (st : OverlappingPairs) (p : PairData) : Bool :=
  st.shapeIsConvex p.proxyShape1 && st.shapeIsConvex p.proxyShape2

/-- `OverlappingPairs::destroyPair(index)`: the destructors do not change the
modelled slot contents; the observable effect is removing the slot's pair id
from `mMapPairIdToPairIndex`. -/
def destroyPair (st : OverlappingPairs) (index : Nat) : OverlappingPairs :=
  { st with mMapPairIdToPairIndex :=
      st.mMapPairIdToPairIndex.remove (getSlot st.pairs index).pairId }

/-- `OverlappingPairs::movePairToIndex(srcIndex, destIndex)`: copy the source
slot onto the destination slot, destroy the source entry, and re-point the
id→index map entry of the moved pair at the destination. -/
def movePairToIndex (st : OverlappingPairs) (srcIndex destIndex : Nat) :
    OverlappingPairs :=
  let pairId := (getSlot st.pairs srcIndex).pairId
  let st1 := { st with pairs := writeSlot st.pairs destIndex (getSlot st.pairs srcIndex) }
  let st2 := destroyPair st1 srcIndex
  { st2 with mMapPairIdToPairIndex := st2.mMapPairIdToPairIndex.add pairId destIndex }

/-- `OverlappingPairs::prepareAddPair(isConvexVsConvex)`: compute the
insertion index for a new pair and maintain the partition boundary (the
`allocate` growth step changes only capacity, not the modelled state). -/
def prepareAddPair (st : OverlappingPairs) (isConvexVsConvex : Bool) :
    Nat × OverlappingPairs :=
  if !isConvexVsConvex then
    (st.pairs.length, st)
  else
    let st1 :=
      if st.mConcavePairsStartIndex ≠ st.pairs.length then
        movePairToIndex st st.mConcavePairsStartIndex st.pairs.length
      else st
    (st.mConcavePairsStartIndex,
     { st1 with mConcavePairsStartIndex := st1.mConcavePairsStartIndex + 1 })

/-- `static_cast<uint32>` applied to an `int32` broad-phase id. -/
def toUInt32Nat (i : Int) : Nat := (i % ((2 : Int) ^ 32)).toNat

/-- Modelled from the spec: `pairNumbers` (declared in `OverlappingPairs.h`,
not under `src/`) mixes the ordered (larger, smaller) pair of 32-bit ids
into a collision-free 64-bit identity; we use the canonical elegant-pairing
function.  The symmetry claim depends only on the max/min argument order at
the `addPair` call site, which is in `src/`. -/
def pairNumbers (number1 number2 : Nat) : Nat :=
  if number2 ≤ number1 then number1 * number1 + number1 + number2
  else number1 + number2 * number2

/-- The pair identity computed by `OverlappingPairs::addPair`:
`pairNumbers(std::max(shape1Id, shape2Id), std::min(shape1Id, shape2Id))`
on the `uint32` casts of the two broad-phase ids. -/
def computePairId (shape1 shape2 : ProxyShape) : Nat :=
  let shape1Id := toUInt32Nat shape1.broadPhaseId
  let shape2Id := toUInt32Nat shape2.broadPhaseId
  pairNumbers (max shape1Id shape2Id) (min shape1Id shape2Id)

/-- The component data placement-constructed by `addPair` at the insertion
index. -/
def newPairData (pairId : Nat) (shape1 shape2 : ProxyShape) (isActive : Bool) :
    PairData :=
  { pairId := pairId,
    pairBroadPhaseId1 := shape1.broadPhaseId,
    pairBroadPhaseId2 := shape2.broadPhaseId,
    proxyShape1 := shape1.entity,
    proxyShape2 := shape2.entity,
    lastFrameCollisionInfos := [],
    needToTestOverlap := false,
    isActive := isActive }

/-- `OverlappingPairs::addPair(shape1, shape2, isActive)`.  Returns `none`
when the `assert(!mMapPairIdToPairIndex.containsKey(pairId))` precondition
fails.  The proxy-shape reverse-lookup sets live outside the registry and are
not part of the modelled state. -/
def addPair (st : OverlappingPairs) (shape1 shape2 : ProxyShape)
    (isActive : Bool) : Option OverlappingPairs :=
  let isConvexVsConvex := st.shapeIsConvex shape1.entity && st.shapeIsConvex shape2.entity
  let prep := prepareAddPair st isConvexVsConvex
  let index := prep.1
  let st1 := prep.2
  let pairId := computePairId shape1 shape2
  if st1.mMapPairIdToPairIndex.contains pairId then none
  else
    some { st1 with
      pairs := writeSlot st1.pairs index (newPairData pairId shape1 shape2 isActive),
      mMapPairIdToPairIndex := st1.mMapPairIdToPairIndex.add pairId index }

/-- `OverlappingPairs::removePair(pairId)`.  Returns `none` when the
`assert(mMapPairIdToPairIndex.containsKey(pairId))` precondition (or the
`index < mNbPairs` assertion) fails.  The final `mNbPairs--` drops the last
slot of the live region. -/
def removePair (st : OverlappingPairs) (pairId : Nat) : Option OverlappingPairs :=
  match st.mMapPairIdToPairIndex.find pairId with
  | none => none
  | some index =>
    if index < st.pairs.length then
      let st1 := destroyPair st index
      let n := st1.pairs.length
      let st2 :=
        if st1.mConcavePairsStartIndex ≤ index then
          -- the pair to remove is convex vs concave
          if index ≠ n - 1 then movePairToIndex st1 (n - 1) index else st1
        else
          -- the pair to remove is convex vs convex
          let stA :=
            if index ≠ st1.mConcavePairsStartIndex - 1 then
              movePairToIndex st1 (st1.mConcavePairsStartIndex - 1) index
            else st1
          let stB :=
            if stA.mConcavePairsStartIndex ≠ n then
              movePairToIndex stA (n - 1) (stA.mConcavePairsStartIndex - 1)
            else stA
          { stB with mConcavePairsStartIndex := stB.mConcavePairsStartIndex - 1 }
      some { st2 with pairs := st2.pairs.dropLast }
    else none

/-- `OverlappingPairs::swapPairs(index1, index2)`. -/
def swapPairs (st : OverlappingPairs) (index1 index2 : Nat) : OverlappingPairs :=
  let pair1 := getSlot st.pairs index1
  let st1 := destroyPair st index1
  let st2 := movePairToIndex st1 index2 index1
  let st3 := { st2 with pairs := writeSlot st2.pairs index2 pair1 }
  { st3 with mMapPairIdToPairIndex := st3.mMapPairIdToPairIndex.add pair1.pairId index2 }

/-- Lookup in a per-pair last-frame-info cache (`Map<ShapeIdPair, ...>::find`,
first match wins). -/
def lfciFind (m : List ((Nat × Nat) × LastFrameCollisionInfo)) (k : Nat × Nat) :
    Option LastFrameCollisionInfo :=
  (m.find? (fun e => e.1 = k)).map Prod.snd

/-- `OverlappingPairs::addLastFrameInfoIfNecessary(pairId, shapeId1, shapeId2)`:
create a fresh (non-obsolete) entry for the feature pair if absent, otherwise
clear the obsolescence flag of the existing entry.  The model returns the
updated state; `none` models the `containsKey`/index assertions failing. -/
def addLastFrameInfoIfNecessary (st : OverlappingPairs) (pairId : Nat)
    (shapeId1 shapeId2 : Nat) : Option OverlappingPairs :=
  match st.mMapPairIdToPairIndex.find pairId with
  | none => none
  | some index =>
    if index < st.pairs.length then
      let p := getSlot st.pairs index
      let shapeIdPair := (shapeId1, shapeId2)
      match lfciFind p.lastFrameCollisionInfos shapeIdPair with
      | none =>
        let p1 := { p with lastFrameCollisionInfos :=
            p.lastFrameCollisionInfos ++ [(shapeIdPair, LastFrameCollisionInfo.init)] }
        some { st with pairs := st.pairs.set index p1 }
      | some _ =>
        let p1 := { p with lastFrameCollisionInfos :=
            (p.lastFrameCollisionInfos.map
              (fun e => if e.1 = shapeIdPair then (e.1, { isObsolete := false }) else e)) }
        some { st with pairs := st.pairs.set index p1 }
    else none

/-- One pair's sweep step of
`OverlappingPairs::clearObsoleteLastFrameCollisionInfos`: delete the obsolete
entries, mark the surviving ones obsolete. -/
def sweepLfci : List ((Nat × Nat) × LastFrameCollisionInfo) →
    List ((Nat × Nat) × LastFrameCollisionInfo)
  | [] => []
  | e :: rest =>
    if e.2.isObsolete then sweepLfci rest
    else (e.1, { isObsolete := true }) :: sweepLfci rest

/-- `OverlappingPairs::clearObsoleteLastFrameCollisionInfos()`: apply the
mark/purge sweep to every pair's cache. -/
def clearObsoleteLastFrameCollisionInfos (st : OverlappingPairs) : OverlappingPairs :=
  { st with pairs := (st.pairs.map
      (fun p => { p with lastFrameCollisionInfos := sweepLfci p.lastFrameCollisionInfos })) }

/-! ## Basic lemmas about the map and slot models -/

theorem NatMap.find_add (m : NatMap) (k v k2 : Nat) :
    (m.add k v).find k2 = if k2 = k then some v else m.find k2 := rfl

theorem NatMap.find_remove (m : NatMap) (k k2 : Nat) :
    (m.remove k).find k2 = if k2 = k then none else m.find k2 := rfl

theorem NatMap.size_add_absent {m : NatMap} {k : Nat} (v : Nat)
    (h : m.find k = none) : (m.add k v).size = m.size + 1 := by
  simp [NatMap.add, h]

theorem NatMap.size_remove_present {m : NatMap} {k v : Nat}
    (h : m.find k = some v) : (m.remove k).size = m.size - 1 := by
  simp [NatMap.remove, h]

theorem NatMap.size_add_present {m : NatMap} {k : Nat} (d : Nat)
    (h : (m.find k).isSome = true) : (m.add k d).size = m.size := by
  simp [NatMap.add, h]

theorem NatMap.size_remove_absent {m : NatMap} {k : Nat}
    (h : m.find k = none) : (m.remove k).size = m.size := by
  simp [NatMap.remove, h]

theorem getSlot_set_self {ps : List PairData} {i : Nat} (p : PairData)
    (h : i < ps.length) : getSlot (ps.set i p) i = p := by
  simp [getSlot, List.getD_eq_getElem?_getD, List.getElem?_set, h]

theorem getSlot_set_other {ps : List PairData} {i j : Nat} (p : PairData)
    (h : j ≠ i) : getSlot (ps.set i p) j = getSlot ps j := by
  simp [getSlot, List.getD_eq_getElem?_getD, List.getElem?_set, Ne.symm h]

theorem getSlot_append_self (ps : List PairData) (p : PairData) :
    getSlot (ps ++ [p]) ps.length = p := by
  simp [getSlot, List.getD_eq_getElem?_getD, List.getElem?_concat_length]

theorem getSlot_append_other {ps : List PairData} {j : Nat} (p : PairData)
    (h : j ≠ ps.length) : getSlot (ps ++ [p]) j = getSlot ps j := by
  rcases Nat.lt_or_ge j ps.length with hj | hj
  · simp [getSlot, List.getD_eq_getElem?_getD, List.getElem?_append, hj]
  · have hj2 : ps.length < j := lt_of_le_of_ne hj (Ne.symm h)
    have h1 : (ps ++ [p])[j]? = none := by
      rw [List.getElem?_append_right (Nat.le_of_lt hj2)]
      simp [List.getElem?_eq_none_iff]
      omega
    have h2 : ps[j]? = none := by
      simp [List.getElem?_eq_none_iff]
      omega
    simp [getSlot, List.getD_eq_getElem?_getD, h1, h2]

theorem writeSlot_lt {ps : List PairData} {i : Nat} (p : PairData)
    (h : i < ps.length) : writeSlot ps i p = ps.set i p := by
  simp [writeSlot, h]

theorem writeSlot_at_length (ps : List PairData) (p : PairData) :
    writeSlot ps ps.length p = ps ++ [p] := by
  simp [writeSlot]

theorem getSlot_dropLast {ps : List PairData} {i : Nat}
    (h : i < ps.length - 1) : getSlot ps.dropLast i = getSlot ps i := by
  rw [List.dropLast_eq_take]
  simp [getSlot, List.getD_eq_getElem?_getD, List.getElem?_take, h,
    List.getElem?_eq_getElem (show i < ps.length by omega)]

/-! ## The registry invariants

`PartitionInvAux f ps cs` is the convex/concave partition invariant of the
slot array: the boundary is in range, slots below it are convex-vs-convex
and slots from it on are convex-vs-concave (the absence of gaps is
structural: `ps` is exactly the live region `0 .. mNbPairs-1`).
`MapInvAux m ps` says the id→index lookup is exactly the inverse of the
slot array's `pairId` field. -/

/-- Classification of a stored pair by the shape-convexity environment. -/
def catOf (f : Nat → Bool) (p : PairData) : Bool :=
  f p.proxyShape1 && f p.proxyShape2

def PartitionInvAux (f : Nat → Bool) (ps : List PairData) (cs : Nat) : Prop :=
  cs ≤ ps.length ∧
  ∀ i, i < ps.length → catOf f (getSlot ps i) = decide (i < cs)

def MapInvAux (m : NatMap) (ps : List PairData) : Prop :=
  m.size = ps.length ∧
  (∀ i, i < ps.length → m.find (getSlot ps i).pairId = some i) ∧
  (∀ k v, m.find k = some v → v < ps.length ∧ (getSlot ps v).pairId = k)

/-- Well-formedness of a registry state: both invariants of
`OverlappingPairs` (the ones re-asserted by the assertions at the end of
`addPair` and `removePair`). -/
def WF (st : OverlappingPairs) : Prop :=
  PartitionInvAux st.shapeIsConvex st.pairs st.mConcavePairsStartIndex ∧
  MapInvAux st.mMapPairIdToPairIndex st.pairs

theorem MapInvAux.id_inj {m : NatMap} {ps : List PairData}
    (h : MapInvAux m ps) {i j : Nat} (hi : i < ps.length) (hj : j < ps.length)
    (hid : (getSlot ps i).pairId = (getSlot ps j).pairId) : i = j := by
  have h1 := h.2.1 i hi
  have h2 := h.2.1 j hj
  rw [hid] at h1
  rw [h1] at h2
  exact Option.some.inj h2

theorem MapInvAux.absent_ne {m : NatMap} {ps : List PairData}
    (h : MapInvAux m ps) {k : Nat} (habs : m.find k = none)
    {i : Nat} (hi : i < ps.length) : (getSlot ps i).pairId ≠ k := by
  intro he
  have h1 := h.2.1 i hi
  rw [he, habs] at h1
  exact Option.noConfusion h1

/-! ## Characterizations of the registry operations -/

theorem getSlot_writeSlot_self {ps : List PairData} {i : Nat} (p : PairData)
    (h : i ≤ ps.length) : getSlot (writeSlot ps i p) i = p := by
  rcases Nat.lt_or_ge i ps.length with hi | hi
  · rw [writeSlot_lt p hi, getSlot_set_self p hi]
  · have he : i = ps.length := Nat.le_antisymm h hi
    subst he
    rw [writeSlot_at_length, getSlot_append_self]

theorem getSlot_writeSlot_other {ps : List PairData} {i j : Nat} (p : PairData)
    (hi : i ≤ ps.length) (h : j ≠ i) : getSlot (writeSlot ps i p) j = getSlot ps j := by
  rcases Nat.lt_or_ge i ps.length with hlt | hge
  · rw [writeSlot_lt p hlt, getSlot_set_other p h]
  · have he : i = ps.length := Nat.le_antisymm hi hge
    subst he
    rw [writeSlot_at_length, getSlot_append_other p h]

theorem length_writeSlot_lt {ps : List PairData} {i : Nat} (p : PairData)
    (h : i < ps.length) : (writeSlot ps i p).length = ps.length := by
  rw [writeSlot_lt p h, List.length_set]

theorem length_writeSlot_self (ps : List PairData) (p : PairData) :
    (writeSlot ps ps.length p).length = ps.length + 1 := by
  rw [writeSlot_at_length]
  simp

theorem NatMap.find_remove_add (m : NatMap) (k d k2 : Nat) :
    ((m.remove k).add k d).find k2 = if k2 = k then some d else m.find k2 := by
  simp only [NatMap.find_add, NatMap.find_remove]
  split <;> rfl

theorem NatMap.size_remove_add {m : NatMap} {k v : Nat} (d : Nat)
    (h : m.find k = some v) (hs : 1 ≤ m.size) :
    ((m.remove k).add k d).size = m.size := by
  have h1 : (m.remove k).find k = none := by simp [NatMap.find_remove]
  rw [NatMap.size_add_absent d h1, NatMap.size_remove_present h]
  omega

/-- Writing the source slot anywhere leaves the source slot's value
readable at the source index. -/
theorem getSlot_writeSlot_src (ps : List PairData) (src dest : Nat) :
    getSlot (writeSlot ps dest (getSlot ps src)) src = getSlot ps src := by
  unfold writeSlot
  split
  · rcases eq_or_ne src dest with he | hne
    · subst he
      exact getSlot_set_self _ (by assumption)
    · exact getSlot_set_other _ hne
  · rcases eq_or_ne src ps.length with he | hne
    · subst he
      exact getSlot_append_self _ _
    · exact getSlot_append_other _ hne

/-- `movePairToIndex` in closed form: destination slot overwritten with the
source slot, the moved pair's map entry re-pointed at the destination. -/
theorem movePairToIndex_eq (st : OverlappingPairs) (src dest : Nat) :
    movePairToIndex st src dest =
      { st with
        pairs := writeSlot st.pairs dest (getSlot st.pairs src),
        mMapPairIdToPairIndex :=
          (st.mMapPairIdToPairIndex.remove (getSlot st.pairs src).pairId).add
            (getSlot st.pairs src).pairId dest } := by
  unfold movePairToIndex destroyPair
  simp only
  congr 1
  rw [getSlot_writeSlot_src]

theorem prepareAddPair_concave (st : OverlappingPairs) :
    prepareAddPair st false = (st.pairs.length, st) := rfl

theorem prepareAddPair_convex_nomove (st : OverlappingPairs)
    (h : st.mConcavePairsStartIndex = st.pairs.length) :
    prepareAddPair st true =
      (st.mConcavePairsStartIndex,
       { st with mConcavePairsStartIndex := st.mConcavePairsStartIndex + 1 }) := by
  simp [prepareAddPair, h]

theorem prepareAddPair_convex_move (st : OverlappingPairs)
    (h : st.mConcavePairsStartIndex ≠ st.pairs.length) :
    prepareAddPair st true =
      (st.mConcavePairsStartIndex,
       { st with
         pairs := st.pairs ++ [getSlot st.pairs st.mConcavePairsStartIndex],
         mConcavePairsStartIndex := st.mConcavePairsStartIndex + 1,
         mMapPairIdToPairIndex :=
           (st.mMapPairIdToPairIndex.remove
              (getSlot st.pairs st.mConcavePairsStartIndex).pairId).add
             (getSlot st.pairs st.mConcavePairsStartIndex).pairId
             st.pairs.length }) := by
  have hmv := movePairToIndex_eq st st.mConcavePairsStartIndex st.pairs.length
  rw [writeSlot_at_length] at hmv
  simp [prepareAddPair, h, hmv]

/-- `addPair` in closed form, convex-vs-concave case: the new pair goes to
the end of the array, the boundary does not move. -/
theorem addPair_concave_eq (st : OverlappingPairs) (s1 s2 : ProxyShape)
    (act : Bool)
    (hcat : (st.shapeIsConvex s1.entity && st.shapeIsConvex s2.entity) = false)
    (habs : st.mMapPairIdToPairIndex.find (computePairId s1 s2) = none) :
    addPair st s1 s2 act = some
      { st with
        pairs := st.pairs ++ [newPairData (computePairId s1 s2) s1 s2 act],
        mMapPairIdToPairIndex :=
          st.mMapPairIdToPairIndex.add (computePairId s1 s2) st.pairs.length } := by
  unfold addPair
  simp only [hcat, prepareAddPair_concave, NatMap.contains, habs, Option.isSome_none,
    Bool.false_eq_true, if_false, writeSlot_at_length]

/-- `addPair` in closed form, convex-vs-convex case with no concave pairs:
the new pair goes to the end of the array, the boundary moves up by one. -/
theorem addPair_convex_nomove_eq (st : OverlappingPairs) (s1 s2 : ProxyShape)
    (act : Bool)
    (hcat : (st.shapeIsConvex s1.entity && st.shapeIsConvex s2.entity) = true)
    (hcs : st.mConcavePairsStartIndex = st.pairs.length)
    (habs : st.mMapPairIdToPairIndex.find (computePairId s1 s2) = none) :
    addPair st s1 s2 act = some
      { st with
        pairs := st.pairs ++ [newPairData (computePairId s1 s2) s1 s2 act],
        mConcavePairsStartIndex := st.mConcavePairsStartIndex + 1,
        mMapPairIdToPairIndex :=
          st.mMapPairIdToPairIndex.add (computePairId s1 s2)
            st.mConcavePairsStartIndex } := by
  unfold addPair
  simp only [hcat, prepareAddPair_convex_nomove st hcs, NatMap.contains, habs,
    Option.isSome_none, Bool.false_eq_true, if_false, hcs, writeSlot_at_length]

/-- `addPair` in closed form, convex-vs-convex case with concave pairs
present: the first concave pair is relocated to the end of the array, the
new pair takes its former slot at the boundary, the boundary moves up by
one. -/
theorem addPair_convex_move_eq (st : OverlappingPairs) (s1 s2 : ProxyShape)
    (act : Bool)
    (hcat : (st.shapeIsConvex s1.entity && st.shapeIsConvex s2.entity) = true)
    (hcs : st.mConcavePairsStartIndex ≠ st.pairs.length)
    (hlt : st.mConcavePairsStartIndex < st.pairs.length)
    (habs : st.mMapPairIdToPairIndex.find (computePairId s1 s2) = none)
    (hne : (getSlot st.pairs st.mConcavePairsStartIndex).pairId ≠
      computePairId s1 s2) :
    addPair st s1 s2 act = some
      { st with
        pairs := (st.pairs ++ [getSlot st.pairs st.mConcavePairsStartIndex]).set
          st.mConcavePairsStartIndex (newPairData (computePairId s1 s2) s1 s2 act),
        mConcavePairsStartIndex := st.mConcavePairsStartIndex + 1,
        mMapPairIdToPairIndex :=
          (((st.mMapPairIdToPairIndex.remove
               (getSlot st.pairs st.mConcavePairsStartIndex).pairId).add
              (getSlot st.pairs st.mConcavePairsStartIndex).pairId
              st.pairs.length).add (computePairId s1 s2)
            st.mConcavePairsStartIndex) } := by
  have hfind : (((st.mMapPairIdToPairIndex.remove
      (getSlot st.pairs st.mConcavePairsStartIndex).pairId).add
      (getSlot st.pairs st.mConcavePairsStartIndex).pairId
      st.pairs.length).find (computePairId s1 s2)) = none := by
    rw [NatMap.find_remove_add]
    simp [Ne.symm hne, habs]
  have hws : writeSlot (st.pairs ++ [getSlot st.pairs st.mConcavePairsStartIndex])
      st.mConcavePairsStartIndex (newPairData (computePairId s1 s2) s1 s2 act) =
      (st.pairs ++ [getSlot st.pairs st.mConcavePairsStartIndex]).set
        st.mConcavePairsStartIndex (newPairData (computePairId s1 s2) s1 s2 act) := by
    apply writeSlot_lt
    simp
    omega
  unfold addPair
  simp only [hcat, prepareAddPair_convex_move st hcs, NatMap.contains, hfind,
    Option.isSome_none, Bool.false_eq_true, if_false, hws]

theorem movePairToIndex_cs (st : OverlappingPairs) (src dest : Nat) :
    (movePairToIndex st src dest).mConcavePairsStartIndex =
      st.mConcavePairsStartIndex := rfl

theorem destroyPair_pairs (st : OverlappingPairs) (i : Nat) :
    (destroyPair st i).pairs = st.pairs := rfl

theorem destroyPair_cs (st : OverlappingPairs) (i : Nat) :
    (destroyPair st i).mConcavePairsStartIndex = st.mConcavePairsStartIndex := rfl

theorem destroyPair_map (st : OverlappingPairs) (i : Nat) :
    (destroyPair st i).mMapPairIdToPairIndex =
      st.mMapPairIdToPairIndex.remove (getSlot st.pairs i).pairId := rfl

/-- `removePair` in closed form, concave slot that is already last: no
relocation, the slot is dropped, the boundary does not move. -/
theorem removePair_K1_eq (st : OverlappingPairs) (pid index : Nat)
    (hfind : st.mMapPairIdToPairIndex.find pid = some index)
    (hidx : index < st.pairs.length)
    (hge : st.mConcavePairsStartIndex ≤ index)
    (hlast : index = st.pairs.length - 1) :
    removePair st pid = some
      { st with
        pairs := st.pairs.dropLast,
        mMapPairIdToPairIndex :=
          st.mMapPairIdToPairIndex.remove (getSlot st.pairs index).pairId } := by
  unfold removePair
  rw [hfind]
  simp only [destroyPair_pairs, destroyPair_cs, if_pos hidx, if_pos hge,
    if_neg (show ¬index ≠ st.pairs.length - 1 from not_ne_iff.mpr hlast)]
  rfl

/-- `removePair` in closed form, concave slot not last: the last (concave)
slot is moved into the hole, then the last slot is dropped; the boundary
does not move. -/
theorem removePair_K2_eq (st : OverlappingPairs) (pid index : Nat)
    (hfind : st.mMapPairIdToPairIndex.find pid = some index)
    (hidx : index < st.pairs.length)
    (hge : st.mConcavePairsStartIndex ≤ index)
    (hne : index ≠ st.pairs.length - 1) :
    removePair st pid = some
      { st with
        pairs := (st.pairs.set index
          (getSlot st.pairs (st.pairs.length - 1))).dropLast,
        mMapPairIdToPairIndex :=
          ((st.mMapPairIdToPairIndex.remove (getSlot st.pairs index).pairId).remove
             (getSlot st.pairs (st.pairs.length - 1)).pairId).add
            (getSlot st.pairs (st.pairs.length - 1)).pairId index } := by
  unfold removePair
  rw [hfind]
  simp only [destroyPair_pairs, destroyPair_cs, if_pos hidx, if_pos hge, if_pos hne,
    movePairToIndex_eq, destroyPair_map]
  rw [writeSlot_lt _ hidx]
  rfl

/-- `removePair` in closed form, convex slot that is the last convex slot,
no concave pairs: no relocation, the slot is dropped, the boundary moves
down by one. -/
theorem removePair_V1_eq (st : OverlappingPairs) (pid index : Nat)
    (hfind : st.mMapPairIdToPairIndex.find pid = some index)
    (hidx : index < st.pairs.length)
    (hlt : index < st.mConcavePairsStartIndex)
    (ha : index = st.mConcavePairsStartIndex - 1)
    (hb : st.mConcavePairsStartIndex = st.pairs.length) :
    removePair st pid = some
      { st with
        pairs := st.pairs.dropLast,
        mConcavePairsStartIndex := st.mConcavePairsStartIndex - 1,
        mMapPairIdToPairIndex :=
          st.mMapPairIdToPairIndex.remove (getSlot st.pairs index).pairId } := by
  unfold removePair
  rw [hfind]
  simp only [destroyPair_pairs, destroyPair_cs, if_pos hidx,
    if_neg (Nat.not_le_of_lt hlt),
    if_neg (show ¬index ≠ st.mConcavePairsStartIndex - 1 from not_ne_iff.mpr ha),
    if_neg (show ¬st.mConcavePairsStartIndex ≠ st.pairs.length from
      not_ne_iff.mpr hb)]
  rfl

/-- `removePair` in closed form, convex slot that is the last convex slot,
concave pairs present: the last (concave) slot is moved onto the removed
(boundary-adjacent) slot, the last slot is dropped, the boundary moves down
by one. -/
theorem removePair_V2_eq (st : OverlappingPairs) (pid index : Nat)
    (hfind : st.mMapPairIdToPairIndex.find pid = some index)
    (hidx : index < st.pairs.length)
    (hlt : index < st.mConcavePairsStartIndex)
    (ha : index = st.mConcavePairsStartIndex - 1)
    (hb : st.mConcavePairsStartIndex ≠ st.pairs.length) :
    removePair st pid = some
      { st with
        pairs := (st.pairs.set (st.mConcavePairsStartIndex - 1)
          (getSlot st.pairs (st.pairs.length - 1))).dropLast,
        mConcavePairsStartIndex := st.mConcavePairsStartIndex - 1,
        mMapPairIdToPairIndex :=
          ((st.mMapPairIdToPairIndex.remove (getSlot st.pairs index).pairId).remove
             (getSlot st.pairs (st.pairs.length - 1)).pairId).add
            (getSlot st.pairs (st.pairs.length - 1)).pairId
            (st.mConcavePairsStartIndex - 1) } := by
  unfold removePair
  rw [hfind]
  simp only [destroyPair_pairs, destroyPair_cs, if_pos hidx,
    if_neg (Nat.not_le_of_lt hlt),
    if_neg (show ¬index ≠ st.mConcavePairsStartIndex - 1 from not_ne_iff.mpr ha),
    if_pos hb, movePairToIndex_eq, destroyPair_map]
  rw [writeSlot_lt _ (show st.mConcavePairsStartIndex - 1 < st.pairs.length by omega)]
  rfl

/-- `removePair` in closed form, convex slot not the last convex one, no
concave pairs: the last convex slot is moved into the hole, the last slot
is dropped, the boundary moves down by one. -/
theorem removePair_V3_eq (st : OverlappingPairs) (pid index : Nat)
    (hfind : st.mMapPairIdToPairIndex.find pid = some index)
    (hidx : index < st.pairs.length)
    (hlt : index < st.mConcavePairsStartIndex)
    (ha : index ≠ st.mConcavePairsStartIndex - 1)
    (hb : st.mConcavePairsStartIndex = st.pairs.length) :
    removePair st pid = some
      { st with
        pairs := (st.pairs.set index
          (getSlot st.pairs (st.mConcavePairsStartIndex - 1))).dropLast,
        mConcavePairsStartIndex := st.mConcavePairsStartIndex - 1,
        mMapPairIdToPairIndex :=
          ((st.mMapPairIdToPairIndex.remove (getSlot st.pairs index).pairId).remove
             (getSlot st.pairs (st.mConcavePairsStartIndex - 1)).pairId).add
            (getSlot st.pairs (st.mConcavePairsStartIndex - 1)).pairId index } := by
  unfold removePair
  rw [hfind]
  simp only [destroyPair_pairs, destroyPair_cs, if_pos hidx,
    if_neg (Nat.not_le_of_lt hlt), if_pos ha, movePairToIndex_cs]
  rw [if_neg (show ¬st.mConcavePairsStartIndex ≠ st.pairs.length from
    not_ne_iff.mpr hb)]
  simp only [movePairToIndex_eq, destroyPair_pairs, destroyPair_cs, destroyPair_map]
  rw [writeSlot_lt _ hidx]
  rfl

/-- `removePair` in closed form, convex slot not the last convex one,
concave pairs present: the last convex slot is moved into the hole, then
the last (concave) slot is moved onto the vacated last convex slot, the
last slot is dropped, the boundary moves down by one. -/
theorem removePair_V4_eq (st : OverlappingPairs) (pid index : Nat)
    (hfind : st.mMapPairIdToPairIndex.find pid = some index)
    (hidx : index < st.pairs.length)
    (hlt : index < st.mConcavePairsStartIndex)
    (ha : index ≠ st.mConcavePairsStartIndex - 1)
    (hb : st.mConcavePairsStartIndex ≠ st.pairs.length)
    (hcsle : st.mConcavePairsStartIndex ≤ st.pairs.length) :
    removePair st pid = some
      { st with
        pairs := (((st.pairs.set index
            (getSlot st.pairs (st.mConcavePairsStartIndex - 1))).set
            (st.mConcavePairsStartIndex - 1)
            (getSlot st.pairs (st.pairs.length - 1)))).dropLast,
        mConcavePairsStartIndex := st.mConcavePairsStartIndex - 1,
        mMapPairIdToPairIndex :=
          (((((st.mMapPairIdToPairIndex.remove
                  (getSlot st.pairs index).pairId).remove
                 (getSlot st.pairs (st.mConcavePairsStartIndex - 1)).pairId).add
                (getSlot st.pairs (st.mConcavePairsStartIndex - 1)).pairId
                index).remove
             (getSlot st.pairs (st.pairs.length - 1)).pairId).add
            (getSlot st.pairs (st.pairs.length - 1)).pairId
            (st.mConcavePairsStartIndex - 1)) } := by
  have hnm : st.pairs.length - 1 ≠ index := by omega
  unfold removePair
  rw [hfind]
  simp only [destroyPair_pairs, destroyPair_cs, if_pos hidx,
    if_neg (Nat.not_le_of_lt hlt), if_pos ha, movePairToIndex_cs]
  rw [if_pos hb]
  simp only [movePairToIndex_eq, destroyPair_pairs, destroyPair_cs, destroyPair_map,
    movePairToIndex_cs]
  rw [writeSlot_lt _ hidx]
  rw [getSlot_set_other _ hnm]
  rw [writeSlot_lt _ (show st.mConcavePairsStartIndex - 1 <
    (st.pairs.set index (getSlot st.pairs (st.mConcavePairsStartIndex - 1))).length by
      rw [List.length_set]; omega)]
  rfl

/-! ## Preservation of the registry invariants -/

theorem NatMap.find_eq_none_of_contains_false {m : NatMap} {k : Nat}
    (h : m.contains k = false) : m.find k = none := by
  cases hf : m.find k with
  | none => rfl
  | some v => rw [NatMap.contains, hf] at h; simp at h

theorem catOf_newPairData (f : Nat → Bool) (pid : Nat) (s1 s2 : ProxyShape)
    (act : Bool) :
    catOf f (newPairData pid s1 s2 act) = (f s1.entity && f s2.entity) := rfl

/-- `addPair` preserves the registry invariants. -/
theorem WF_addPair {st st2 : OverlappingPairs} {s1 s2 : ProxyShape} {act : Bool}
    (hwf : WF st) (h : addPair st s1 s2 act = some st2) : WF st2 := by
  obtain ⟨hP, hM⟩ := hwf
  have hcs_le : st.mConcavePairsStartIndex ≤ st.pairs.length := hP.1
  cases hcat : (st.shapeIsConvex s1.entity && st.shapeIsConvex s2.entity) with
  | false =>
    -- convex vs concave insertion at the end
    have hc : (prepareAddPair st false).2.mMapPairIdToPairIndex.contains
        (computePairId s1 s2) = false := by
      by_contra hcc
      rw [addPair, hcat] at h
      simp only [eq_true_of_ne_false hcc, if_true] at h
      exact Option.noConfusion h
    rw [prepareAddPair_concave] at hc
    have habs := NatMap.find_eq_none_of_contains_false hc
    rw [addPair_concave_eq st s1 s2 act hcat habs] at h
    obtain rfl := Option.some.inj h
    constructor
    · refine ⟨by simpa using Nat.le_succ_of_le hcs_le, ?_⟩
      intro i hi
      simp only [List.length_append, List.length_singleton] at hi
      rcases eq_or_ne i st.pairs.length with he | hne
      · subst he
        rw [getSlot_append_self]
        have hnl : ¬st.pairs.length < st.mConcavePairsStartIndex :=
          Nat.not_lt_of_le hcs_le
        simp [catOf_newPairData, hcat, hnl]
      · rw [getSlot_append_other _ hne]
        exact hP.2 i (by omega)
    · refine ⟨?_, ?_, ?_⟩
      · rw [NatMap.size_add_absent _ habs, hM.1]
        simp
      · intro i hi
        simp only [List.length_append, List.length_singleton] at hi
        rcases eq_or_ne i st.pairs.length with he | hne
        · subst he
          rw [getSlot_append_self]
          simp [NatMap.find_add, newPairData]
        · rw [getSlot_append_other _ hne, NatMap.find_add]
          rw [if_neg (hM.absent_ne habs (by omega))]
          exact hM.2.1 i (by omega)
      · intro k v hkv
        rw [NatMap.find_add] at hkv
        split at hkv
        · next hk =>
          obtain rfl := Option.some.inj hkv
          subst hk
          refine ⟨by simp, ?_⟩
          rw [getSlot_append_self]
          rfl
        · next hk =>
          obtain ⟨hv, hid⟩ := hM.2.2 k v hkv
          refine ⟨by simp; omega, ?_⟩
          rw [getSlot_append_other _ (by omega)]
          exact hid
  | true =>
    rcases eq_or_ne st.mConcavePairsStartIndex st.pairs.length with hcs | hcs
    · -- convex vs convex, no concave pairs yet
      have hc : (prepareAddPair st true).2.mMapPairIdToPairIndex.contains
          (computePairId s1 s2) = false := by
        by_contra hcc
        rw [addPair, hcat] at h
        simp only [eq_true_of_ne_false hcc, if_true] at h
        exact Option.noConfusion h
      rw [prepareAddPair_convex_nomove st hcs] at hc
      have habs := NatMap.find_eq_none_of_contains_false hc
      rw [addPair_convex_nomove_eq st s1 s2 act hcat hcs habs] at h
      obtain rfl := Option.some.inj h
      constructor
      · refine ⟨by simp; omega, ?_⟩
        intro i hi
        simp only [List.length_append, List.length_singleton] at hi
        rcases eq_or_ne i st.pairs.length with he | hne
        · subst he
          rw [getSlot_append_self]
          simp only [catOf_newPairData, hcat]
          have : st.pairs.length < st.mConcavePairsStartIndex + 1 := by omega
          simp [this]
        · rw [getSlot_append_other _ hne]
          have hi2 : i < st.pairs.length := by omega
          rw [hP.2 i hi2]
          have h1 : i < st.mConcavePairsStartIndex := by omega
          have h2 : i < st.mConcavePairsStartIndex + 1 := by omega
          simp [h1, h2]
      · refine ⟨?_, ?_, ?_⟩
        · rw [NatMap.size_add_absent _ habs, hM.1]
          simp
        · intro i hi
          simp only [List.length_append, List.length_singleton] at hi
          rcases eq_or_ne i st.pairs.length with he | hne
          · subst he
            rw [getSlot_append_self]
            simp [NatMap.find_add, newPairData, hcs]
          · rw [getSlot_append_other _ hne, NatMap.find_add]
            rw [if_neg (hM.absent_ne habs (by omega))]
            exact hM.2.1 i (by omega)
        · intro k v hkv
          rw [NatMap.find_add] at hkv
          split at hkv
          · next hk =>
            obtain rfl := Option.some.inj hkv
            subst hk
            refine ⟨by simp; omega, ?_⟩
            rw [hcs, getSlot_append_self]
            rfl
          · next hk =>
            obtain ⟨hv, hid⟩ := hM.2.2 k v hkv
            refine ⟨by simp; omega, ?_⟩
            rw [getSlot_append_other _ (by omega)]
            exact hid
    · -- convex vs convex, first concave pair relocated to the end
      have hlt : st.mConcavePairsStartIndex < st.pairs.length :=
        lt_of_le_of_ne hcs_le hcs
      have hc : (prepareAddPair st true).2.mMapPairIdToPairIndex.contains
          (computePairId s1 s2) = false := by
        by_contra hcc
        rw [addPair, hcat] at h
        simp only [eq_true_of_ne_false hcc, if_true] at h
        exact Option.noConfusion h
      rw [prepareAddPair_convex_move st hcs] at hc
      have hfind1 := NatMap.find_eq_none_of_contains_false hc
      rw [NatMap.find_remove_add] at hfind1
      have hne : (getSlot st.pairs st.mConcavePairsStartIndex).pairId ≠
          computePairId s1 s2 := by
        intro he
        rw [if_pos he.symm] at hfind1
        exact Option.noConfusion hfind1
      have habs : st.mMapPairIdToPairIndex.find (computePairId s1 s2) = none := by
        rwa [if_neg (Ne.symm hne)] at hfind1
      rw [addPair_convex_move_eq st s1 s2 act hcat hcs hlt habs hne] at h
      obtain rfl := Option.some.inj h
      have hlen : ((st.pairs ++ [getSlot st.pairs st.mConcavePairsStartIndex]).set
          st.mConcavePairsStartIndex
          (newPairData (computePairId s1 s2) s1 s2 act)).length =
          st.pairs.length + 1 := by
        simp
      have hcsP := hP.2 st.mConcavePairsStartIndex hlt
      have hfind2 : (((st.mMapPairIdToPairIndex.remove
          (getSlot st.pairs st.mConcavePairsStartIndex).pairId).add
          (getSlot st.pairs st.mConcavePairsStartIndex).pairId
          st.pairs.length).find (computePairId s1 s2)) = none := by
        rw [NatMap.find_remove_add, if_neg (Ne.symm hne)]
        exact habs
      constructor
      · refine ⟨by simp; omega, ?_⟩
        intro i hi
        rw [hlen] at hi
        rcases eq_or_ne i st.mConcavePairsStartIndex with he | hne2
        · subst he
          rw [getSlot_set_self _ (by simp; omega)]
          simp only [catOf_newPairData, hcat]
          have hk : st.mConcavePairsStartIndex < st.mConcavePairsStartIndex + 1 := by
            omega
          simp [hk]
        · rw [getSlot_set_other _ hne2]
          rcases eq_or_ne i st.pairs.length with he3 | hne3
          · subst he3
            rw [getSlot_append_self]
            rw [hcsP]
            have h1 : ¬st.mConcavePairsStartIndex < st.mConcavePairsStartIndex := by omega
            have h2 : ¬st.pairs.length < st.mConcavePairsStartIndex + 1 := by omega
            simp [h1, h2]
          · rw [getSlot_append_other _ hne3]
            have hi2 : i < st.pairs.length := by omega
            rw [hP.2 i hi2]
            simp only [decide_eq_decide]
            omega
      · refine ⟨?_, ?_, ?_⟩
        · rw [NatMap.size_add_absent _ hfind2, NatMap.size_remove_add st.pairs.length
            (hM.2.1 st.mConcavePairsStartIndex hlt) (by rw [hM.1]; omega), hM.1]
          simp
        · intro i hi
          rw [hlen] at hi
          rcases eq_or_ne i st.mConcavePairsStartIndex with he | hne2
          · subst he
            rw [getSlot_set_self _ (by simp; omega)]
            simp [NatMap.find_add, newPairData]
          · rw [getSlot_set_other _ hne2]
            rcases eq_or_ne i st.pairs.length with he3 | hne3
            · subst he3
              rw [getSlot_append_self, NatMap.find_add,
                if_neg hne, NatMap.find_remove_add, if_pos rfl]
            · rw [getSlot_append_other _ hne3]
              have hi2 : i < st.pairs.length := by omega
              rw [NatMap.find_add, if_neg (hM.absent_ne habs hi2),
                NatMap.find_remove_add,
                if_neg (fun he => hne2 (hM.id_inj hi2 hlt he))]
              exact hM.2.1 i hi2
        · intro k v hkv
          rw [NatMap.find_add] at hkv
          split at hkv
          · next hk =>
            obtain rfl := Option.some.inj hkv
            subst hk
            refine ⟨by simp; omega, ?_⟩
            rw [getSlot_set_self _ (by simp; omega)]
            rfl
          · next hk =>
            rw [NatMap.find_remove_add] at hkv
            split at hkv
            · next hk2 =>
              obtain rfl := Option.some.inj hkv
              subst hk2
              refine ⟨by simp, ?_⟩
              rw [getSlot_set_other _ (by omega), getSlot_append_self]
            · next hk2 =>
              obtain ⟨hv, hid⟩ := hM.2.2 k v hkv
              refine ⟨by simp; omega, ?_⟩
              have hvne : v ≠ st.mConcavePairsStartIndex := by
                intro he
                subst he
                exact hk2 hid.symm
              rw [getSlot_set_other _ hvne, getSlot_append_other _ (by omega)]
              exact hid

/-- Dropping the last slot after destroying its map entry keeps the lookup
consistent. -/
theorem MapInvAux_after_drop {m : NatMap} {ps : List PairData} {index : Nat}
    (hM : MapInvAux m ps) (hidx : index < ps.length)
    (hlast : index = ps.length - 1) :
    MapInvAux (m.remove (getSlot ps index).pairId) ps.dropLast := by
  have hfind := hM.2.1 index hidx
  refine ⟨?_, ?_, ?_⟩
  · rw [NatMap.size_remove_present hfind, hM.1, List.length_dropLast]
  · intro i hi
    rw [List.length_dropLast] at hi
    have hne : (getSlot ps i).pairId ≠ (getSlot ps index).pairId := by
      intro he
      have := hM.id_inj (show i < ps.length by omega) hidx he
      omega
    rw [getSlot_dropLast hi, NatMap.find_remove, if_neg hne]
    exact hM.2.1 i (by omega)
  · intro k v hkv
    rw [NatMap.find_remove] at hkv
    split at hkv
    · exact Option.noConfusion hkv
    · next hk =>
      obtain ⟨hv, hid⟩ := hM.2.2 k v hkv
      have hvne : v ≠ index := by
        intro he
        subst he
        exact hk hid.symm
      refine ⟨by rw [List.length_dropLast]; omega, ?_⟩
      rw [getSlot_dropLast (show v < ps.length - 1 by omega)]
      exact hid

/-- Moving the last slot into a hole (whose map entry was destroyed) and
then dropping the last slot keeps the lookup consistent. -/
theorem MapInvAux_after_move_drop {m : NatMap} {ps : List PairData}
    {index : Nat} (hM : MapInvAux m ps) (hidx : index < ps.length)
    (hne : index ≠ ps.length - 1) :
    MapInvAux
      (((m.remove (getSlot ps index).pairId).remove
          (getSlot ps (ps.length - 1)).pairId).add
        (getSlot ps (ps.length - 1)).pairId index)
      ((ps.set index (getSlot ps (ps.length - 1))).dropLast) := by
  have hn2 : 2 ≤ ps.length := by omega
  have hlast : ps.length - 1 < ps.length := by omega
  have hfindIdx := hM.2.1 index hidx
  have hfindLast := hM.2.1 (ps.length - 1) hlast
  have hneids : (getSlot ps (ps.length - 1)).pairId ≠ (getSlot ps index).pairId := by
    intro he
    have := hM.id_inj hlast hidx he
    omega
  have hlen : ((ps.set index (getSlot ps (ps.length - 1))).dropLast).length =
      ps.length - 1 := by
    rw [List.length_dropLast, List.length_set]
  have hslot : ∀ i, i < ps.length - 1 →
      getSlot ((ps.set index (getSlot ps (ps.length - 1))).dropLast) i =
        (if i = index then getSlot ps (ps.length - 1) else getSlot ps i) := by
    intro i hi
    rw [getSlot_dropLast (by rw [List.length_set]; omega)]
    rcases eq_or_ne i index with he | hne2
    · subst he
      rw [getSlot_set_self _ hidx, if_pos rfl]
    · rw [getSlot_set_other _ hne2, if_neg hne2]
  refine ⟨?_, ?_, ?_⟩
  · have h1 := NatMap.size_remove_present hfindIdx
    have h2 : ((m.remove (getSlot ps index).pairId).remove
        (getSlot ps (ps.length - 1)).pairId).size = m.size - 2 := by
      rw [NatMap.size_remove_present (v := ps.length - 1), h1]
      · omega
      · rw [NatMap.find_remove, if_neg hneids]
        exact hfindLast
    have h3 : (((m.remove (getSlot ps index).pairId).remove
        (getSlot ps (ps.length - 1)).pairId).find
        (getSlot ps (ps.length - 1)).pairId) = none := by
      rw [NatMap.find_remove, if_pos rfl]
    rw [NatMap.size_add_absent _ h3, h2, hM.1, hlen]
    omega
  · intro i hi
    rw [hlen] at hi
    rw [hslot i hi]
    rcases eq_or_ne i index with he | hne2
    · subst he
      rw [if_pos rfl, NatMap.find_add, if_pos rfl]
    · rw [if_neg hne2, NatMap.find_add]
      have hne3 : (getSlot ps i).pairId ≠ (getSlot ps (ps.length - 1)).pairId := by
        intro he
        have := hM.id_inj (show i < ps.length by omega) hlast he
        omega
      have hne4 : (getSlot ps i).pairId ≠ (getSlot ps index).pairId := by
        intro he
        have := hM.id_inj (show i < ps.length by omega) hidx he
        exact hne2 this
      rw [if_neg hne3, NatMap.find_remove, if_neg hne3, NatMap.find_remove,
        if_neg hne4]
      exact hM.2.1 i (by omega)
  · intro k v hkv
    rw [NatMap.find_add] at hkv
    split at hkv
    · next hk =>
      obtain rfl := Option.some.inj hkv
      subst hk
      refine ⟨by rw [hlen]; omega, ?_⟩
      rw [hslot index (by omega), if_pos rfl]
    · next hk =>
      rw [NatMap.find_remove] at hkv
      split at hkv
      · exact Option.noConfusion hkv
      · rw [NatMap.find_remove] at hkv
        split at hkv
        · exact Option.noConfusion hkv
        · next hk2 =>
          obtain ⟨hv, hid⟩ := hM.2.2 k v hkv
          have hv1 : v ≠ ps.length - 1 := by
            intro he
            subst he
            exact hk hid.symm
          have hv2 : v ≠ index := by
            intro he
            subst he
            exact hk2 hid.symm
          refine ⟨by rw [hlen]; omega, ?_⟩
          rw [hslot v (by omega), if_neg hv2]
          exact hid

/-- `removePair` preserves the registry invariants. -/
theorem WF_removePair {st st2 : OverlappingPairs} {pid : Nat}
    (hwf : WF st) (h : removePair st pid = some st2) : WF st2 := by
  obtain ⟨hP, hM⟩ := hwf
  cases hfind : st.mMapPairIdToPairIndex.find pid with
  | none =>
    unfold removePair at h
    rw [hfind] at h
    exact Option.noConfusion h
  | some index =>
    by_cases hidx : index < st.pairs.length
    case neg =>
      unfold removePair at h
      rw [hfind] at h
      simp only [if_neg hidx] at h
      exact Option.noConfusion h
    case pos =>
    have hid : (getSlot st.pairs index).pairId = pid := (hM.2.2 pid index hfind).2
    have hn1 : 1 ≤ st.pairs.length := by omega
    have hcsle : st.mConcavePairsStartIndex ≤ st.pairs.length := hP.1
    by_cases hge : st.mConcavePairsStartIndex ≤ index
    · by_cases hlast : index = st.pairs.length - 1
      · -- concave slot, already last
        rw [removePair_K1_eq st pid index hfind hidx hge hlast] at h
        obtain rfl := Option.some.inj h
        constructor
        · refine ⟨by simp <;> omega, ?_⟩
          intro i hi
          simp only [List.length_dropLast] at hi
          rw [getSlot_dropLast hi]
          exact hP.2 i (by omega)
        · exact MapInvAux_after_drop hM hidx hlast
      · -- concave slot, last concave slot moved into the hole
        rw [removePair_K2_eq st pid index hfind hidx hge hlast] at h
        obtain rfl := Option.some.inj h
        constructor
        · refine ⟨by simp <;> omega, ?_⟩
          intro i hi
          simp only [List.length_dropLast, List.length_set] at hi
          rw [getSlot_dropLast (by rw [List.length_set]; omega)]
          rcases eq_or_ne i index with he | hne2
          · subst he
            rw [getSlot_set_self _ hidx, hP.2 (st.pairs.length - 1) (by omega)]
            simp only [decide_eq_decide]
            omega
          · rw [getSlot_set_other _ hne2]
            exact hP.2 i (by omega)
        · exact MapInvAux_after_move_drop hM hidx hlast
    · push_neg at hge
      have hcs1 : 1 ≤ st.mConcavePairsStartIndex := by omega
      by_cases ha : index = st.mConcavePairsStartIndex - 1
      · by_cases hb : st.mConcavePairsStartIndex = st.pairs.length
        · -- convex slot, last convex, no concave pairs
          rw [removePair_V1_eq st pid index hfind hidx hge ha hb] at h
          obtain rfl := Option.some.inj h
          constructor
          · refine ⟨by simp <;> omega, ?_⟩
            intro i hi
            simp only [List.length_dropLast] at hi
            rw [getSlot_dropLast hi, hP.2 i (by omega)]
            simp only [decide_eq_decide]
            omega
          · exact MapInvAux_after_drop hM hidx (by omega)
        · -- convex slot, last convex, last concave moved into the hole
          rw [removePair_V2_eq st pid index hfind hidx hge ha hb] at h
          rw [← ha] at h
          obtain rfl := Option.some.inj h
          constructor
          · refine ⟨by simp <;> omega, ?_⟩
            intro i hi
            simp only [List.length_dropLast, List.length_set] at hi
            rw [getSlot_dropLast (by rw [List.length_set]; omega)]
            rcases eq_or_ne i index with he | hne2
            · subst he
              rw [getSlot_set_self _ hidx, hP.2 (st.pairs.length - 1) (by omega)]
              simp only [decide_eq_decide]
              omega
            · rw [getSlot_set_other _ hne2, hP.2 i (by omega)]
              simp only [decide_eq_decide]
              omega
          · exact MapInvAux_after_move_drop hM hidx (by omega)
      · by_cases hb : st.mConcavePairsStartIndex = st.pairs.length
        · -- convex slot, not last convex, no concave pairs
          rw [removePair_V3_eq st pid index hfind hidx hge ha hb] at h
          rw [hb] at h
          obtain rfl := Option.some.inj h
          constructor
          · refine ⟨by simp <;> omega, ?_⟩
            intro i hi
            simp only [List.length_dropLast, List.length_set] at hi
            rw [getSlot_dropLast (by rw [List.length_set]; omega)]
            rcases eq_or_ne i index with he | hne2
            · subst he
              rw [getSlot_set_self _ hidx,
                hP.2 (st.pairs.length - 1) (by omega)]
              simp only [decide_eq_decide]
              omega
            · rw [getSlot_set_other _ hne2, hP.2 i (by omega)]
              simp only [decide_eq_decide]
              omega
          · exact MapInvAux_after_move_drop hM hidx (by omega)
        · -- convex slot, not last convex, concave pairs present: double move
          rw [removePair_V4_eq st pid index hfind hidx hge ha hb hcsle] at h
          obtain rfl := Option.some.inj h
          have hicl : index < st.mConcavePairsStartIndex - 1 := by omega
          have hcsn : st.mConcavePairsStartIndex < st.pairs.length := by omega
          have hc1n : st.mConcavePairsStartIndex - 1 < st.pairs.length := by omega
          have hlastlt : st.pairs.length - 1 < st.pairs.length := by omega
          have hfindIdx := hM.2.1 index hidx
          have hfindC := hM.2.1 (st.mConcavePairsStartIndex - 1) hc1n
          have hfindL := hM.2.1 (st.pairs.length - 1) hlastlt
          have hneCI : (getSlot st.pairs (st.mConcavePairsStartIndex - 1)).pairId ≠
              (getSlot st.pairs index).pairId := by
            intro he
            have := hM.id_inj hc1n hidx he
            omega
          have hneLI : (getSlot st.pairs (st.pairs.length - 1)).pairId ≠
              (getSlot st.pairs index).pairId := by
            intro he
            have := hM.id_inj hlastlt hidx he
            omega
          have hneLC : (getSlot st.pairs (st.pairs.length - 1)).pairId ≠
              (getSlot st.pairs (st.mConcavePairsStartIndex - 1)).pairId := by
            intro he
            have := hM.id_inj hlastlt hc1n he
            omega
          have hlenB : (((st.pairs.set index
              (getSlot st.pairs (st.mConcavePairsStartIndex - 1))).set
              (st.mConcavePairsStartIndex - 1)
              (getSlot st.pairs (st.pairs.length - 1)))).length =
              st.pairs.length := by
            rw [List.length_set, List.length_set]
          have hslot : ∀ i, i < st.pairs.length - 1 →
              getSlot ((((st.pairs.set index
                (getSlot st.pairs (st.mConcavePairsStartIndex - 1))).set
                (st.mConcavePairsStartIndex - 1)
                (getSlot st.pairs (st.pairs.length - 1)))).dropLast) i =
              (if i = st.mConcavePairsStartIndex - 1 then
                getSlot st.pairs (st.pairs.length - 1)
              else if i = index then
                getSlot st.pairs (st.mConcavePairsStartIndex - 1)
              else getSlot st.pairs i) := by
            intro i hi
            rw [getSlot_dropLast (by rw [hlenB]; omega)]
            rcases eq_or_ne i (st.mConcavePairsStartIndex - 1) with he | hne2
            · subst he
              rw [getSlot_set_self _ (by rw [List.length_set]; omega), if_pos rfl]
            · rw [getSlot_set_other _ hne2, if_neg hne2]
              rcases eq_or_ne i index with he3 | hne3
              · subst he3
                rw [getSlot_set_self _ hidx, if_pos rfl]
              · rw [getSlot_set_other _ hne3, if_neg hne3]
          constructor
          · refine ⟨by simp <;> omega, ?_⟩
            intro i hi
            simp only [List.length_dropLast, List.length_set] at hi
            rw [hslot i hi]
            rcases eq_or_ne i (st.mConcavePairsStartIndex - 1) with he | hne2
            · subst he
              rw [if_pos rfl, hP.2 (st.pairs.length - 1) (by omega)]
              simp only [decide_eq_decide]
              omega
            · rw [if_neg hne2]
              rcases eq_or_ne i index with he3 | hne3
              · subst he3
                rw [if_pos rfl, hP.2 (st.mConcavePairsStartIndex - 1) (by omega)]
                simp only [decide_eq_decide]
                omega
              · rw [if_neg hne3, hP.2 i (by omega)]
                simp only [decide_eq_decide]
                omega
          · refine ⟨?_, ?_, ?_⟩
            · have h1 := NatMap.size_remove_present
                (by rw [hid] at hfindIdx ⊢; exact hfind :
                  st.mMapPairIdToPairIndex.find (getSlot st.pairs index).pairId =
                    some index)
              have h2 : ((st.mMapPairIdToPairIndex.remove
                  (getSlot st.pairs index).pairId).find
                  (getSlot st.pairs (st.mConcavePairsStartIndex - 1)).pairId) =
                  some (st.mConcavePairsStartIndex - 1) := by
                rw [NatMap.find_remove, if_neg hneCI]
                exact hfindC
              have h3 := NatMap.size_remove_present h2
              have h4 : (((st.mMapPairIdToPairIndex.remove
                  (getSlot st.pairs index).pairId).remove
                  (getSlot st.pairs (st.mConcavePairsStartIndex - 1)).pairId).find
                  (getSlot st.pairs (st.mConcavePairsStartIndex - 1)).pairId) =
                  none := by
                rw [NatMap.find_remove, if_pos rfl]
              have h5 : ((((st.mMapPairIdToPairIndex.remove
                  (getSlot st.pairs index).pairId).remove
                  (getSlot st.pairs (st.mConcavePairsStartIndex - 1)).pairId).add
                  (getSlot st.pairs (st.mConcavePairsStartIndex - 1)).pairId
                  index).find
                  (getSlot st.pairs (st.pairs.length - 1)).pairId) =
                  some (st.pairs.length - 1) := by
                rw [NatMap.find_add, if_neg hneLC, NatMap.find_remove,
                  if_neg hneLC, NatMap.find_remove, if_neg hneLI]
                exact hfindL
              have h6 := NatMap.size_remove_present h5
              have h7 : (((((st.mMapPairIdToPairIndex.remove
                  (getSlot st.pairs index).pairId).remove
                  (getSlot st.pairs (st.mConcavePairsStartIndex - 1)).pairId).add
                  (getSlot st.pairs (st.mConcavePairsStartIndex - 1)).pairId
                  index).remove
                  (getSlot st.pairs (st.pairs.length - 1)).pairId).find
                  (getSlot st.pairs (st.pairs.length - 1)).pairId) = none := by
                rw [NatMap.find_remove, if_pos rfl]
              rw [NatMap.size_add_absent _ h7, h6,
                NatMap.size_add_absent _ h4, h3, h1, hM.1,
                List.length_dropLast, hlenB]
              omega
            · intro i hi
              simp only [List.length_dropLast, List.length_set] at hi
              rw [hslot i hi]
              rcases eq_or_ne i (st.mConcavePairsStartIndex - 1) with he | hne2
              · subst he
                rw [if_pos rfl, NatMap.find_add, if_pos rfl]
              · rw [if_neg hne2]
                rcases eq_or_ne i index with he3 | hne3
                · subst he3
                  rw [if_pos rfl, NatMap.find_add, if_neg (Ne.symm hneLC),
                    NatMap.find_remove, if_neg (Ne.symm hneLC),
                    NatMap.find_add, if_pos rfl]
                · rw [if_neg hne3]
                  have hneA : (getSlot st.pairs i).pairId ≠
                      (getSlot st.pairs (st.pairs.length - 1)).pairId := by
                    intro he
                    have := hM.id_inj (show i < st.pairs.length by omega) hlastlt he
                    omega
                  have hneB : (getSlot st.pairs i).pairId ≠
                      (getSlot st.pairs (st.mConcavePairsStartIndex - 1)).pairId := by
                    intro he
                    have := hM.id_inj (show i < st.pairs.length by omega) hc1n he
                    exact hne2 this
                  have hneC : (getSlot st.pairs i).pairId ≠
                      (getSlot st.pairs index).pairId := by
                    intro he
                    have := hM.id_inj (show i < st.pairs.length by omega) hidx he
                    exact hne3 this
                  rw [NatMap.find_add, if_neg hneA, NatMap.find_remove,
                    if_neg hneA, NatMap.find_add, if_neg hneB,
                    NatMap.find_remove, if_neg hneB, NatMap.find_remove,
                    if_neg hneC]
                  exact hM.2.1 i (by omega)
            · intro k v hkv
              rw [NatMap.find_add] at hkv
              split at hkv
              · next hk =>
                obtain rfl := Option.some.inj hkv
                subst hk
                refine ⟨by simp <;> omega, ?_⟩
                rw [hslot _ (by omega), if_pos rfl]
              · next hk =>
                rw [NatMap.find_remove] at hkv
                split at hkv
                · exact Option.noConfusion hkv
                · rw [NatMap.find_add] at hkv
                  split at hkv
                  · next hk2 =>
                    obtain rfl := Option.some.inj hkv
                    subst hk2
                    refine ⟨by simp <;> omega, ?_⟩
                    rw [hslot _ (by omega), if_neg (by omega), if_pos rfl]
                  · next hk2 =>
                    rw [NatMap.find_remove] at hkv
                    split at hkv
                    · exact Option.noConfusion hkv
                    · rw [NatMap.find_remove] at hkv
                      split at hkv
                      · exact Option.noConfusion hkv
                      · next hk3 =>
                        obtain ⟨hv, hid2⟩ := hM.2.2 k v hkv
                        have hv1 : v ≠ st.pairs.length - 1 := by
                          intro he
                          subst he
                          exact hk hid2.symm
                        have hv2 : v ≠ st.mConcavePairsStartIndex - 1 := by
                          intro he
                          subst he
                          exact hk2 hid2.symm
                        have hv3 : v ≠ index := by
                          intro he
                          subst he
                          exact hk3 hid2.symm
                        refine ⟨by simp <;> omega, ?_⟩
                        rw [hslot _ (by omega), if_neg hv2, if_neg hv3]
                        exact hid2

/-! ## Reachable registry states -/

/-- A freshly constructed registry: no pairs, boundary at zero, empty
lookup (the constructor of `OverlappingPairs`). -/
def initState (f : Nat → Bool) : OverlappingPairs :=
  { pairs := [],
    mConcavePairsStartIndex := 0,
    mMapPairIdToPairIndex := NatMap.empty,
    shapeIsConvex := f }

/-- One mutating call of the public pair-maintenance interface. -/
inductive RegistryStep : OverlappingPairs → OverlappingPairs → Prop
  | add (st : OverlappingPairs) (s1 s2 : ProxyShape) (act : Bool)
      (st2 : OverlappingPairs) :
      addPair st s1 s2 act = some st2 → RegistryStep st st2
  | remove (st : OverlappingPairs) (pid : Nat) (st2 : OverlappingPairs) :
      removePair st pid = some st2 → RegistryStep st st2

/-- States reachable from a fresh registry by a sequence of `addPair` /
`removePair` calls; every intermediate state of such a sequence is itself
reachable. -/
inductive ReachableState (f : Nat → Bool) : OverlappingPairs → Prop
  | init : ReachableState f (initState f)
  | step {st st2 : OverlappingPairs} :
      ReachableState f st → RegistryStep st st2 → ReachableState f st2

theorem WF_initState (f : Nat → Bool) : WF (initState f) := by
  refine ⟨⟨Nat.le_refl 0, ?_⟩, rfl, ?_, ?_⟩
  · intro i hi
    simp [initState] at hi
  · intro i hi
    simp [initState] at hi
  · intro k v hkv
    exact Option.noConfusion hkv

/-- Every reachable registry state is well formed. -/
theorem WF_reachable {f : Nat → Bool} {st : OverlappingPairs}
    (h : ReachableState f st) : WF st := by
  induction h with
  | init => exact WF_initState f
  | step _ hs ih =>
    cases hs with
    | add _ _ _ _ he => exact WF_addPair ih he
    | remove _ _ he => exact WF_removePair ih he

theorem isConvexVsConvexPair_eq_catOf (st : OverlappingPairs) (p : PairData) :
    isConvexVsConvexPair st p = catOf st.shapeIsConvex p := rfl

/-- C1.  After any sequence of `addPair`/`removePair` calls starting from a
fresh registry — i.e. in every reachable intermediate state — the partition
boundary is at most the pair count, every slot at an index strictly below
the boundary holds a convex-vs-convex pair, and every slot at an index in
`[boundary, count)` holds a convex-vs-concave pair.  The live region
`st.pairs` is exactly the slots `0 .. count-1`, so there are no unused
slots below the count. -/
theorem claim_C1_partition_invariant {f : Nat → Bool} {st : OverlappingPairs}
    (h : ReachableState f st) :
    st.mConcavePairsStartIndex ≤ st.pairs.length ∧
    (∀ i, i < st.mConcavePairsStartIndex →
      isConvexVsConvexPair st (getSlot st.pairs i) = true) ∧
    (∀ i, st.mConcavePairsStartIndex ≤ i → i < st.pairs.length →
      isConvexVsConvexPair st (getSlot st.pairs i) = false) := by
  obtain ⟨⟨h1, h2⟩, _⟩ := WF_reachable h
  refine ⟨h1, ?_, ?_⟩
  · intro i hi
    rw [isConvexVsConvexPair_eq_catOf, h2 i (by omega)]
    simp [hi]
  · intro i hi1 hi2
    rw [isConvexVsConvexPair_eq_catOf, h2 i hi2]
    simp
    omega

/-- Witness for C1 at a concrete reachable state (one convex pair added to
a fresh registry). -/
theorem claim_C1_partition_invariant_witness :
    ReachableState (fun _ => true) (initState (fun _ => true)) ∧
    ((initState (fun _ => true)).mConcavePairsStartIndex ≤
      (initState (fun _ => true)).pairs.length ∧
    (∀ i, i < (initState (fun _ => true)).mConcavePairsStartIndex →
      isConvexVsConvexPair (initState (fun _ => true))
        (getSlot (initState (fun _ => true)).pairs i) = true) ∧
    (∀ i, (initState (fun _ => true)).mConcavePairsStartIndex ≤ i →
      i < (initState (fun _ => true)).pairs.length →
      isConvexVsConvexPair (initState (fun _ => true))
        (getSlot (initState (fun _ => true)).pairs i) = false)) :=
  ⟨ReachableState.init,
   claim_C1_partition_invariant ReachableState.init⟩

/-! ## Count / lookup-size consistency (claim C5) -/

/-- The consistency re-asserted after each mutating registry call: the live
pair count equals the lookup's entry count, and the partition boundary is
at most the count. -/
def CountInv (st : OverlappingPairs) : Prop :=
  st.pairs.length = st.mMapPairIdToPairIndex.size ∧
  st.mConcavePairsStartIndex ≤ st.pairs.length

theorem CountInv_of_WF {st : OverlappingPairs} (h : WF st) : CountInv st :=
  ⟨h.2.1.symm, h.1.1⟩

theorem CountInv_movePairToIndex {st : OverlappingPairs} (hwf : WF st)
    {src dest : Nat} (hsrc : src < st.pairs.length)
    (hdest : dest < st.pairs.length) :
    CountInv (movePairToIndex st src dest) := by
  obtain ⟨hP, hM⟩ := hwf
  rw [movePairToIndex_eq]
  refine ⟨?_, ?_⟩
  · simp only []
    rw [length_writeSlot_lt _ hdest,
      NatMap.size_add_absent _ (by rw [NatMap.find_remove, if_pos rfl]),
      NatMap.size_remove_present (hM.2.1 src hsrc), hM.1]
    omega
  · simp only []
    rw [length_writeSlot_lt _ hdest]
    exact hP.1

/-- `swapPairs` in closed form. -/
theorem swapPairs_eq (st : OverlappingPairs) (i1 i2 : Nat) :
    swapPairs st i1 i2 =
      { st with
        pairs := writeSlot (writeSlot st.pairs i1 (getSlot st.pairs i2)) i2
          (getSlot st.pairs i1),
        mMapPairIdToPairIndex :=
          (((st.mMapPairIdToPairIndex.remove (getSlot st.pairs i1).pairId).remove
              (getSlot st.pairs i2).pairId).add (getSlot st.pairs i2).pairId
            i1).add (getSlot st.pairs i1).pairId i2 } := by
  unfold swapPairs
  simp only [movePairToIndex_eq, destroyPair_pairs, destroyPair_map, destroyPair_cs]
  rfl

theorem CountInv_swapPairs {st : OverlappingPairs} (hwf : WF st)
    {i1 i2 : Nat} (h1 : i1 < st.pairs.length) (h2 : i2 < st.pairs.length) :
    CountInv (swapPairs st i1 i2) := by
  obtain ⟨hP, hM⟩ := hwf
  rw [swapPairs_eq]
  have hlen : (writeSlot (writeSlot st.pairs i1 (getSlot st.pairs i2)) i2
      (getSlot st.pairs i1)).length = st.pairs.length := by
    rw [length_writeSlot_lt _ (by rw [length_writeSlot_lt _ h1]; exact h2),
      length_writeSlot_lt _ h1]
  refine ⟨?_, ?_⟩
  · simp only []
    rw [hlen]
    rcases eq_or_ne i1 i2 with he | hne
    · subst he
      rw [NatMap.size_add_present i1
          (by rw [NatMap.find_add, if_pos rfl]; rfl),
        NatMap.size_add_absent _ (by rw [NatMap.find_remove, if_pos rfl]),
        NatMap.size_remove_absent (by rw [NatMap.find_remove, if_pos rfl]),
        NatMap.size_remove_present (hM.2.1 i1 h1), hM.1]
      omega
    · have hneid : (getSlot st.pairs i2).pairId ≠ (getSlot st.pairs i1).pairId := by
        intro he
        exact hne (hM.id_inj h2 h1 he).symm
      have hr1 := NatMap.size_remove_present (hM.2.1 i1 h1)
      have hr2 := NatMap.size_remove_present
        (show (st.mMapPairIdToPairIndex.remove
            (getSlot st.pairs i1).pairId).find (getSlot st.pairs i2).pairId =
          some i2 by
            rw [NatMap.find_remove, if_neg hneid]
            exact hM.2.1 i2 h2)
      have ha1 := NatMap.size_add_absent (m := (st.mMapPairIdToPairIndex.remove
          (getSlot st.pairs i1).pairId).remove (getSlot st.pairs i2).pairId) i1
        (by rw [NatMap.find_remove, if_pos rfl])
      have ha2 := NatMap.size_add_absent (m := ((st.mMapPairIdToPairIndex.remove
          (getSlot st.pairs i1).pairId).remove (getSlot st.pairs i2).pairId).add
          (getSlot st.pairs i2).pairId i1) i2
        (by rw [NatMap.find_add, if_neg (Ne.symm hneid), NatMap.find_remove,
             if_neg (Ne.symm hneid), NatMap.find_remove, if_pos rfl])
      rw [ha2, ha1, hr2, hr1, hM.1]
      have : 2 ≤ st.pairs.length := by omega
      omega
  · simp only []
    rw [hlen]
    exact hP.1

/-- C5.  After each of the four mutating registry operations — `addPair`,
`removePair`, `movePairToIndex`, `swapPairs` — applied to a well-formed
state, the live pair count equals the number of entries in the
pair-id→index lookup, and the concave-partition start index is at most the
pair count. -/
theorem claim_C5_count_and_boundary (st : OverlappingPairs) (hwf : WF st) :
    (∀ s1 s2 act st2, addPair st s1 s2 act = some st2 → CountInv st2) ∧
    (∀ pid st2, removePair st pid = some st2 → CountInv st2) ∧
    (∀ src dest, src < st.pairs.length → dest < st.pairs.length →
      CountInv (movePairToIndex st src dest)) ∧
    (∀ i1 i2, i1 < st.pairs.length → i2 < st.pairs.length →
      CountInv (swapPairs st i1 i2)) := by
  refine ⟨?_, ?_, ?_, ?_⟩
  · intro s1 s2 act st2 h
    exact CountInv_of_WF (WF_addPair hwf h)
  · intro pid st2 h
    exact CountInv_of_WF (WF_removePair hwf h)
  · intro src dest hsrc hdest
    exact CountInv_movePairToIndex hwf hsrc hdest
  · intro i1 i2 h1 h2
    exact CountInv_swapPairs hwf h1 h2

/-! ## Round trip: addPair then removePair (claim C6) -/

/-- C6.  In any well-formed registry state where a pair identity is absent,
`addPair` for that identity followed immediately by `removePair` of the
same identity succeeds and restores both the total pair count and the
concave-partition start index to their values before the `addPair` call. -/
theorem claim_C6_add_remove_roundtrip (st : OverlappingPairs)
    (s1 s2 : ProxyShape) (act : Bool) (hwf : WF st)
    (habs : st.mMapPairIdToPairIndex.find (computePairId s1 s2) = none) :
    ∃ st1 st2, addPair st s1 s2 act = some st1 ∧
      removePair st1 (computePairId s1 s2) = some st2 ∧
      st2.pairs.length = st.pairs.length ∧
      st2.mConcavePairsStartIndex = st.mConcavePairsStartIndex := by
  obtain ⟨hP, hM⟩ := hwf
  have hcsle := hP.1
  cases hcat : (st.shapeIsConvex s1.entity && st.shapeIsConvex s2.entity) with
  | false =>
    have h1 := addPair_concave_eq st s1 s2 act hcat habs
    refine ⟨_, _, h1,
      removePair_K1_eq _ (computePairId s1 s2) st.pairs.length ?_ ?_ ?_ ?_,
      ?_, ?_⟩
    · simp [NatMap.find_add]
    · simp
    · simpa using hcsle
    · simp
    · simp [List.dropLast_concat]
    · simp
  | true =>
    rcases eq_or_ne st.mConcavePairsStartIndex st.pairs.length with hcs | hcs
    · have h1 := addPair_convex_nomove_eq st s1 s2 act hcat hcs habs
      refine ⟨_, _, h1,
        removePair_V1_eq _ (computePairId s1 s2) st.mConcavePairsStartIndex
          ?_ ?_ ?_ ?_ ?_, ?_, ?_⟩
      · simp [NatMap.find_add]
      · simp
        omega
      · simp
      · simp
      · simp [hcs]
      · simp [List.dropLast_concat]
      · simp
    · have hlt : st.mConcavePairsStartIndex < st.pairs.length :=
        lt_of_le_of_ne hcsle hcs
      have hne : (getSlot st.pairs st.mConcavePairsStartIndex).pairId ≠
          computePairId s1 s2 := hM.absent_ne habs hlt
      have h1 := addPair_convex_move_eq st s1 s2 act hcat hcs hlt habs hne
      refine ⟨_, _, h1,
        removePair_V2_eq _ (computePairId s1 s2) st.mConcavePairsStartIndex
          ?_ ?_ ?_ ?_ ?_, ?_, ?_⟩
      · simp [NatMap.find_add]
      · simp
        omega
      · simp
      · simp
      · simp
        omega
      · simp [List.length_dropLast, List.length_set]
      · simp

/-! ## The relocation schedule of removePair (claim C2) -/

/-- One relocation step as described by the spec: move the source slot into
the destination slot, skipped when the source equals the destination. -/
def movePairStep (st : OverlappingPairs) (src dest : Nat) : OverlappingPairs :=
  if src = dest then st else movePairToIndex st src dest

/-- The relocation schedule the spec describes for `removePair`, applied to
the state `st1` right after the removed slot's entry was destroyed (`index`
the removed slot, `n` the pair count): if the hole is in the concave
partition, the last (concave) slot is moved into the hole; if it is in the
convex partition, the last convex slot is moved into the hole and then the
vacated last-convex slot is filled with the last (concave) slot, and the
boundary shrinks by one.  Each move is skipped when source equals
destination. -/
def removePairRelocation (st1 : OverlappingPairs) (index n : Nat) :
    OverlappingPairs :=
  if st1.mConcavePairsStartIndex ≤ index then
    movePairStep st1 (n - 1) index
  else
    let stA := movePairStep st1 (st1.mConcavePairsStartIndex - 1) index
    let stB := movePairStep stA (n - 1) (stA.mConcavePairsStartIndex - 1)
    { stB with mConcavePairsStartIndex := stB.mConcavePairsStartIndex - 1 }

/-- C2.  On a well-formed state, `removePair` performs exactly the
relocation schedule of `removePairRelocation` (moves skipped when source
equals destination), then drops the last slot; the boundary shrinks by one
exactly in the convex case and the count always shrinks by one. -/
theorem claim_C2_remove_relocation (st st2 : OverlappingPairs) (pid : Nat)
    (hwf : WF st) (h : removePair st pid = some st2) :
    ∃ index, st.mMapPairIdToPairIndex.find pid = some index ∧
      index < st.pairs.length ∧
      st2 = { removePairRelocation (destroyPair st index) index st.pairs.length
              with
              pairs := (removePairRelocation (destroyPair st index) index
                st.pairs.length).pairs.dropLast } ∧
      st2.pairs.length + 1 = st.pairs.length ∧
      (index < st.mConcavePairsStartIndex →
        st2.mConcavePairsStartIndex + 1 = st.mConcavePairsStartIndex) ∧
      (st.mConcavePairsStartIndex ≤ index →
        st2.mConcavePairsStartIndex = st.mConcavePairsStartIndex) := by
  obtain ⟨hP, hM⟩ := hwf
  have hcsle := hP.1
  cases hfind : st.mMapPairIdToPairIndex.find pid with
  | none =>
    unfold removePair at h
    rw [hfind] at h
    exact Option.noConfusion h
  | some index =>
    by_cases hidx : index < st.pairs.length
    case neg =>
      unfold removePair at h
      rw [hfind] at h
      simp only [if_neg hidx] at h
      exact Option.noConfusion h
    case pos =>
    refine ⟨index, rfl, hidx, ?_⟩
    by_cases hge : st.mConcavePairsStartIndex ≤ index
    · by_cases hlast : index = st.pairs.length - 1
      · rw [removePair_K1_eq st pid index hfind hidx hge hlast] at h
        obtain rfl := Option.some.inj h
        refine ⟨?_, ?_, ?_, ?_⟩
        · unfold removePairRelocation movePairStep
          simp only [destroyPair_cs, destroyPair_pairs, destroyPair_map,
            if_pos hge, if_pos hlast.symm]
          rfl
        · simp
          omega
        · intro hc
          omega
        · intro hc
          simp
      · rw [removePair_K2_eq st pid index hfind hidx hge hlast] at h
        obtain rfl := Option.some.inj h
        refine ⟨?_, ?_, ?_, ?_⟩
        · unfold removePairRelocation movePairStep
          simp only [destroyPair_cs, destroyPair_pairs, if_pos hge,
            if_neg (show ¬st.pairs.length - 1 = index by omega),
            movePairToIndex_eq, destroyPair_map]
          rw [writeSlot_lt _ hidx]
          rfl
        · simp [List.length_set]
          omega
        · intro hc
          omega
        · intro hc
          simp
    · push_neg at hge
      have hcs1 : 1 ≤ st.mConcavePairsStartIndex := by omega
      by_cases ha : index = st.mConcavePairsStartIndex - 1
      · by_cases hb : st.mConcavePairsStartIndex = st.pairs.length
        · rw [removePair_V1_eq st pid index hfind hidx hge ha hb] at h
          obtain rfl := Option.some.inj h
          refine ⟨?_, ?_, ?_, ?_⟩
          · unfold removePairRelocation movePairStep
            simp only [destroyPair_cs, destroyPair_pairs, destroyPair_map,
              if_neg (Nat.not_le_of_lt hge), if_pos ha.symm,
              if_pos (show st.pairs.length - 1 =
                st.mConcavePairsStartIndex - 1 by omega)]
            rfl
          · simp
            omega
          · intro hc
            simp
            omega
          · intro hc
            omega
        · rw [removePair_V2_eq st pid index hfind hidx hge ha hb] at h
          obtain rfl := Option.some.inj h
          refine ⟨?_, ?_, ?_, ?_⟩
          · unfold removePairRelocation movePairStep
            simp only [destroyPair_cs, destroyPair_pairs,
              if_neg (Nat.not_le_of_lt hge), if_pos ha.symm,
              if_neg (show ¬st.pairs.length - 1 =
                st.mConcavePairsStartIndex - 1 by omega),
              movePairToIndex_eq, destroyPair_map]
            rw [writeSlot_lt _ (show st.mConcavePairsStartIndex - 1 <
              st.pairs.length by omega)]
            rfl
          · simp [List.length_set]
            omega
          · intro hc
            simp
            omega
          · intro hc
            omega
      · by_cases hb : st.mConcavePairsStartIndex = st.pairs.length
        · rw [removePair_V3_eq st pid index hfind hidx hge ha hb] at h
          obtain rfl := Option.some.inj h
          refine ⟨?_, ?_, ?_, ?_⟩
          · unfold removePairRelocation movePairStep
            simp only [destroyPair_cs, destroyPair_pairs,
              if_neg (Nat.not_le_of_lt hge),
              if_neg (show ¬st.mConcavePairsStartIndex - 1 = index by omega),
              movePairToIndex_eq,
              destroyPair_map, movePairToIndex_cs,
              if_pos (show st.pairs.length - 1 =
                st.mConcavePairsStartIndex - 1 by omega)]
            rw [writeSlot_lt _ hidx]
            rfl
          · simp [List.length_set]
            omega
          · intro hc
            simp
            omega
          · intro hc
            omega
        · rw [removePair_V4_eq st pid index hfind hidx hge ha hb hcsle] at h
          obtain rfl := Option.some.inj h
          have hnm : st.pairs.length - 1 ≠ index := by omega
          refine ⟨?_, ?_, ?_, ?_⟩
          · unfold removePairRelocation movePairStep
            simp only [destroyPair_cs, destroyPair_pairs,
              if_neg (Nat.not_le_of_lt hge),
              if_neg (show ¬st.mConcavePairsStartIndex - 1 = index by omega),
              movePairToIndex_eq,
              destroyPair_map, movePairToIndex_cs,
              if_neg (show ¬st.pairs.length - 1 =
                st.mConcavePairsStartIndex - 1 by omega)]
            rw [writeSlot_lt _ hidx, getSlot_set_other _ hnm,
              writeSlot_lt _ (show st.mConcavePairsStartIndex - 1 <
                (st.pairs.set index
                  (getSlot st.pairs (st.mConcavePairsStartIndex - 1))).length by
                    rw [List.length_set]; omega)]
            rfl
          · simp [List.length_set]
            omega
          · intro hc
            simp
            omega
          · intro hc
            omega

/-! ## Concrete demonstration states for the witnesses -/

def demoF : Nat → Bool := fun _ => true

def demoShape1 : ProxyShape := { entity := 0, broadPhaseId := 0 }

def demoShape2 : ProxyShape := { entity := 1, broadPhaseId := 1 }

/-- A registry holding one (convex/convex) pair. -/
def demoState : OverlappingPairs :=
  (addPair (initState demoF) demoShape1 demoShape2 true).getD (initState demoF)

theorem demoState_eq :
    addPair (initState demoF) demoShape1 demoShape2 true = some demoState := rfl

theorem WF_demoState : WF demoState :=
  WF_addPair (WF_initState demoF) demoState_eq

/-- The demo registry after removing its only pair again. -/
def demoRemoved : OverlappingPairs :=
  (removePair demoState (computePairId demoShape1 demoShape2)).getD demoState

theorem demoRemoved_eq :
    removePair demoState (computePairId demoShape1 demoShape2) =
      some demoRemoved := rfl

/-- Witness for C2 at the concrete one-pair registry. -/
theorem claim_C2_remove_relocation_witness :
    WF demoState ∧
    (∃ index, demoState.mMapPairIdToPairIndex.find
        (computePairId demoShape1 demoShape2) = some index ∧
      index < demoState.pairs.length ∧
      demoRemoved = { removePairRelocation (destroyPair demoState index) index
          demoState.pairs.length with
          pairs := (removePairRelocation (destroyPair demoState index) index
            demoState.pairs.length).pairs.dropLast } ∧
      demoRemoved.pairs.length + 1 = demoState.pairs.length ∧
      (index < demoState.mConcavePairsStartIndex →
        demoRemoved.mConcavePairsStartIndex + 1 =
          demoState.mConcavePairsStartIndex) ∧
      (demoState.mConcavePairsStartIndex ≤ index →
        demoRemoved.mConcavePairsStartIndex =
          demoState.mConcavePairsStartIndex)) :=
  ⟨WF_demoState,
   claim_C2_remove_relocation demoState demoRemoved
     (computePairId demoShape1 demoShape2) WF_demoState demoRemoved_eq⟩

/-- Witness for C5 at the concrete one-pair registry (the
`movePairToIndex` clause at indices 0, 0). -/
theorem claim_C5_count_and_boundary_witness :
    WF demoState ∧ CountInv (movePairToIndex demoState 0 0) := by
  have hlt : 0 < demoState.pairs.length := Nat.zero_lt_one
  exact ⟨WF_demoState,
    (claim_C5_count_and_boundary demoState WF_demoState).2.2.1 0 0 hlt hlt⟩

/-- Witness for C6 at the fresh registry. -/
theorem claim_C6_add_remove_roundtrip_witness :
    WF (initState demoF) ∧
    (initState demoF).mMapPairIdToPairIndex.find
      (computePairId demoShape1 demoShape2) = none ∧
    (∃ st1 st2, addPair (initState demoF) demoShape1 demoShape2 true = some st1 ∧
      removePair st1 (computePairId demoShape1 demoShape2) = some st2 ∧
      st2.pairs.length = (initState demoF).pairs.length ∧
      st2.mConcavePairsStartIndex = (initState demoF).mConcavePairsStartIndex) :=
  ⟨WF_initState demoF, rfl,
   claim_C6_add_remove_roundtrip (initState demoF) demoShape1 demoShape2 true
     (WF_initState demoF) rfl⟩

/-! ## Pair-identity symmetry (claim C4) -/

/-- C4.  The 64-bit pair identity computed by `addPair` is symmetric in the
two tracked objects: for distinct broad-phase ids the identity of `(a, b)`
equals the identity of `(b, a)` (the call site feeds `pairNumbers` the max
and the min of the two ids). -/
theorem claim_C4_pair_identity_symmetric (shape1 shape2 : ProxyShape)
    (h : shape1.broadPhaseId ≠ shape2.broadPhaseId) :
    computePairId shape1 shape2 = computePairId shape2 shape1 := by
  unfold computePairId
  simp only []
  rw [max_comm, min_comm]

/-- Witness for C4 at two concrete distinct ids. -/
theorem claim_C4_pair_identity_symmetric_witness :
    demoShape1.broadPhaseId ≠ demoShape2.broadPhaseId ∧
    computePairId demoShape1 demoShape2 = computePairId demoShape2 demoShape1 :=
  ⟨by decide, claim_C4_pair_identity_symmetric demoShape1 demoShape2 (by decide)⟩

/-! ## Last-frame-info grace period (claim C3) -/

theorem getSlot_map (f : PairData → PairData) (ps : List PairData) (i : Nat)
    (h : i < ps.length) : getSlot (ps.map f) i = f (getSlot ps i) := by
  simp [getSlot, List.getD_eq_getElem?_getD, List.getElem?_map,
    List.getElem?_eq_getElem h]

/-- A non-obsolete cache entry survives a sweep and comes out marked
obsolete. -/
theorem lfciFind_sweep_not_obsolete {m : List ((Nat × Nat) × LastFrameCollisionInfo)}
    {k : Nat × Nat} {info : LastFrameCollisionInfo}
    (h : lfciFind m k = some info) (hobs : info.isObsolete = false) :
    lfciFind (sweepLfci m) k = some { isObsolete := true } := by
  induction m with
  | nil => simp [lfciFind] at h
  | cons e rest ih =>
    by_cases he : e.1 = k
    · rw [lfciFind, List.find?_cons_of_pos _ (by simp [he])] at h
      obtain rfl := Option.some.inj h
      rw [sweepLfci, if_neg (by rw [hobs]; exact Bool.false_ne_true)]
      rw [lfciFind, List.find?_cons_of_pos _ (by simp [he])]
      rfl
    · rw [lfciFind, List.find?_cons_of_neg _ (by simp [he])] at h
      rw [sweepLfci]
      split
      · exact ih h
      · rw [lfciFind, List.find?_cons_of_neg _ (by simp [he])]
        exact ih h

/-- Every entry a sweep leaves behind is marked obsolete. -/
theorem sweepLfci_all_obsolete (m : List ((Nat × Nat) × LastFrameCollisionInfo)) :
    ∀ e ∈ sweepLfci m, e.2.isObsolete = true := by
  induction m with
  | nil => intro e he; simp [sweepLfci] at he
  | cons a rest ih =>
    intro e he
    rw [sweepLfci] at he
    split at he
    · exact ih e he
    · rcases List.mem_cons.mp he with he2 | he2
      · subst he2; rfl
      · exact ih e he2

/-- A sweep deletes a cache whose entries are all obsolete. -/
theorem sweepLfci_of_all_obsolete
    {m : List ((Nat × Nat) × LastFrameCollisionInfo)}
    (h : ∀ e ∈ m, e.2.isObsolete = true) : sweepLfci m = [] := by
  induction m with
  | nil => rfl
  | cons a rest ih =>
    rw [sweepLfci, if_pos (h a (List.mem_cons_self a rest))]
    exact ih (fun e he => h e (List.mem_cons_of_mem a he))

/-- The first matching entry of the touch-update is the cleared one. -/
theorem lfciFind_touch_update {m : List ((Nat × Nat) × LastFrameCollisionInfo)}
    {k : Nat × Nat} (h : (lfciFind m k).isSome = true) :
    lfciFind (m.map (fun e => if e.1 = k then
      (e.1, ({ isObsolete := false } : LastFrameCollisionInfo)) else e)) k =
      some { isObsolete := false } := by
  induction m with
  | nil => simp [lfciFind] at h
  | cons e rest ih =>
    by_cases he : e.1 = k
    · rw [List.map_cons, if_pos he, lfciFind,
        List.find?_cons_of_pos _ (by simp [he])]
      rfl
    · rw [lfciFind, List.find?_cons_of_neg _ (by simp [he])] at h
      rw [List.map_cons, if_neg he, lfciFind,
        List.find?_cons_of_neg _ (by simp [he])]
      exact ih h

/-- The appended fresh entry is found when no entry matched before. -/
theorem lfciFind_touch_append {m : List ((Nat × Nat) × LastFrameCollisionInfo)}
    {k : Nat × Nat} (h : lfciFind m k = none) :
    lfciFind (m ++ [(k, LastFrameCollisionInfo.init)]) k =
      some LastFrameCollisionInfo.init := by
  rw [lfciFind, List.find?_append]
  rw [lfciFind] at h
  have h2 : m.find? (fun e => decide (e.1 = k)) = none := by
    cases hf : m.find? (fun e => decide (e.1 = k)) with
    | none => rfl
    | some e => rw [hf] at h; simp at h
  rw [h2, Option.none_or]
  simp

/-- After any touch, the touched feature pair's entry is present and not
obsolete. -/
theorem lfciFind_after_touch {st st1 : OverlappingPairs} {pid index : Nat}
    {s1 s2 : Nat}
    (hfind : st.mMapPairIdToPairIndex.find pid = some index)
    (hidx : index < st.pairs.length)
    (htouch : addLastFrameInfoIfNecessary st pid s1 s2 = some st1) :
    st1.pairs.length = st.pairs.length ∧
    lfciFind (getSlot st1.pairs index).lastFrameCollisionInfos (s1, s2) =
      some { isObsolete := false } := by
  unfold addLastFrameInfoIfNecessary at htouch
  rw [hfind] at htouch
  simp only [if_pos hidx] at htouch
  cases hl : lfciFind (getSlot st.pairs index).lastFrameCollisionInfos (s1, s2) with
  | none =>
    rw [hl] at htouch
    obtain rfl := Option.some.inj htouch
    refine ⟨by simp, ?_⟩
    rw [getSlot_set_self _ hidx]
    exact lfciFind_touch_append hl
  | some info =>
    rw [hl] at htouch
    obtain rfl := Option.some.inj htouch
    refine ⟨by simp, ?_⟩
    rw [getSlot_set_self _ hidx]
    exact lfciFind_touch_update (by rw [hl]; rfl)

/-- C3.  Grace period of the last-frame collision cache: an entry touched
via `addLastFrameInfoIfNecessary` is not obsolete (in particular touching
an existing entry clears its obsolescence flag); it survives the next
sweep, which marks it obsolete; and if it then goes untouched through a
second consecutive sweep, that sweep deletes it. -/
theorem claim_C3_lastframe_grace_period (st st1 : OverlappingPairs)
    (pid index s1 s2 : Nat)
    (hfind : st.mMapPairIdToPairIndex.find pid = some index)
    (hidx : index < st.pairs.length)
    (htouch : addLastFrameInfoIfNecessary st pid s1 s2 = some st1) :
    lfciFind (getSlot st1.pairs index).lastFrameCollisionInfos (s1, s2) =
      some { isObsolete := false } ∧
    lfciFind (getSlot (clearObsoleteLastFrameCollisionInfos st1).pairs
        index).lastFrameCollisionInfos (s1, s2) =
      some { isObsolete := true } ∧
    lfciFind (getSlot (clearObsoleteLastFrameCollisionInfos
        (clearObsoleteLastFrameCollisionInfos st1)).pairs
        index).lastFrameCollisionInfos (s1, s2) = none := by
  obtain ⟨hlen, hfound⟩ := lfciFind_after_touch hfind hidx htouch
  have hidx1 : index < st1.pairs.length := by omega
  refine ⟨hfound, ?_, ?_⟩
  · unfold clearObsoleteLastFrameCollisionInfos
    simp only []
    rw [getSlot_map _ _ _ hidx1]
    exact lfciFind_sweep_not_obsolete hfound rfl
  · unfold clearObsoleteLastFrameCollisionInfos
    simp only []
    rw [getSlot_map _ _ _ (by rw [List.length_map]; omega),
      getSlot_map _ _ _ hidx1]
    simp only []
    rw [sweepLfci_of_all_obsolete (sweepLfci_all_obsolete _)]
    rfl

/-- The demo registry with one last-frame info touched for feature pair
`(5, 7)`. -/
def demoTouched : OverlappingPairs :=
  (addLastFrameInfoIfNecessary demoState
    (computePairId demoShape1 demoShape2) 5 7).getD demoState

theorem demoTouched_eq :
    addLastFrameInfoIfNecessary demoState
      (computePairId demoShape1 demoShape2) 5 7 = some demoTouched := rfl

/-- Witness for C3 at the concrete one-pair registry. -/
theorem claim_C3_lastframe_grace_period_witness :
    demoState.mMapPairIdToPairIndex.find
      (computePairId demoShape1 demoShape2) = some 0 ∧
    0 < demoState.pairs.length ∧
    (lfciFind (getSlot demoTouched.pairs 0).lastFrameCollisionInfos (5, 7) =
      some { isObsolete := false } ∧
    lfciFind (getSlot (clearObsoleteLastFrameCollisionInfos
        demoTouched).pairs 0).lastFrameCollisionInfos (5, 7) =
      some { isObsolete := true } ∧
    lfciFind (getSlot (clearObsoleteLastFrameCollisionInfos
        (clearObsoleteLastFrameCollisionInfos demoTouched)).pairs
        0).lastFrameCollisionInfos (5, 7) = none) :=
  ⟨rfl, Nat.zero_lt_one,
   claim_C3_lastframe_grace_period demoState demoTouched
     (computePairId demoShape1 demoShape2) 0 5 7 rfl Nat.zero_lt_one
     demoTouched_eq⟩

/-! ## The broad-phase system (`src/systems/BroadPhaseSystem.cpp`)

The dynamic AABB tree lives in `DynamicAABBTree.cpp`, outside `src/`, so
the tree is an abstract environment: `getFatAABB` and the overlap report
are uninterpreted functions over an abstract AABB type `α`. -/

/-- The environment `BroadPhaseSystem` reads: the dynamic AABB tree
(`getFatAABB`, `reportAllShapesOverlappingWithAABB`, the AABB overlap
predicate `testCollision`) and the owning body of each tree node's proxy
shape (`shape->getBody()->getId()` for the shape stored at a node). -/
structure BroadPhaseEnv (α : Type) where
  getFatAABB : Int → α
  reportAllShapesOverlappingWithAABB : α → List Int
  testCollision : α → α → Bool
  bodyIdOf : Int → Nat

/-- `BroadPhaseSystem::testOverlappingShapes(shape1, shape2)`.  The second
component logs which broad-phase ids were looked up in the spatial index
(`mDynamicAABBTree.getFatAABB`); the early return consults nothing. -/
def testOverlappingShapes {α : Type} (env : BroadPhaseEnv α)
    (shape1 shape2 : ProxyShape) : Bool × List Int :=
  if shape1.broadPhaseId = -1 || shape2.broadPhaseId = -1 then (false, [])
  else
    let aabb1 := env.getFatAABB shape1.broadPhaseId
    let aabb2 := env.getFatAABB shape2.broadPhaseId
    (env.testCollision aabb1 aabb2, [shape1.broadPhaseId, shape2.broadPhaseId])

/-- C10.  If either proxy shape is untracked (broad-phase id `-1`),
`testOverlappingShapes` returns `false` without consulting the spatial
index: the test is total over untracked shapes. -/
theorem claim_C10_untracked_shapes_total {α : Type} (env : BroadPhaseEnv α)
    (shape1 shape2 : ProxyShape)
    (h : shape1.broadPhaseId = -1 ∨ shape2.broadPhaseId = -1) :
    testOverlappingShapes env shape1 shape2 = (false, []) := by
  unfold testOverlappingShapes
  rcases h with h | h <;> simp [h]

/-- Witness for C10 at a concrete untracked shape. -/
theorem claim_C10_untracked_shapes_total_witness :
    (({ entity := 0, broadPhaseId := -1 } : ProxyShape).broadPhaseId = -1 ∨
      demoShape2.broadPhaseId = -1) ∧
    testOverlappingShapes
      { getFatAABB := fun _ => 0,
        reportAllShapesOverlappingWithAABB := fun _ => [],
        testCollision := fun _ _ => true,
        bodyIdOf := fun _ => 0 }
      { entity := 0, broadPhaseId := -1 } demoShape2 = (false, []) :=
  ⟨Or.inl rfl,
   claim_C10_untracked_shapes_total (α := Nat) _ _ demoShape2 (Or.inl rfl)⟩

/-- `BroadPhaseSystem::addOverlappingNodes(referenceNodeId, overlappingNodes)`:
for each reported node, skip the reference node itself and pairs whose two
shapes belong to the same body; notify the rest (a notification is the pair
of node ids handed to `broadPhaseNotifyOverlappingPair`). -/
def addOverlappingNodes {α : Type} (env : BroadPhaseEnv α)
    (referenceNodeId : Int) : List Int → List (Int × Int)
  | [] => []
  | nodeId :: rest =>
    if referenceNodeId ≠ nodeId then
      if env.bodyIdOf referenceNodeId ≠ env.bodyIdOf nodeId then
        (referenceNodeId, nodeId) :: addOverlappingNodes env referenceNodeId rest
      else addOverlappingNodes env referenceNodeId rest
    else addOverlappingNodes env referenceNodeId rest

/-- The loop of `BroadPhaseSystem::computeOverlappingPairs` over the moved
shapes: skip id `-1`; otherwise query the tree once with the shape's
current fat AABB and collect the notifications.  Returns the list of
queried AABBs and the notifications, in order. -/
def computeOverlappingPairsLoop {α : Type} (env : BroadPhaseEnv α) :
    List Int → List α × List (Int × Int)
  | [] => ([], [])
  | shapeID :: rest =>
    if shapeID = -1 then computeOverlappingPairsLoop env rest
    else
      let shapeAABB := env.getFatAABB shapeID
      let overlappingNodes := env.reportAllShapesOverlappingWithAABB shapeAABB
      let r := computeOverlappingPairsLoop env rest
      (shapeAABB :: r.1, addOverlappingNodes env shapeID overlappingNodes ++ r.2)

/-- `BroadPhaseSystem::computeOverlappingPairs(memoryManager)`: process every
moved shape, then clear the moved set.  The result is
`((queried AABBs, notifications), moved set afterwards)`. -/
def computeOverlappingPairs {α : Type} (env : BroadPhaseEnv α)
    (movedShapes : List Int) : (List α × List (Int × Int)) × List Int :=
  (computeOverlappingPairsLoop env movedShapes, [])

/-- Every notification produced by `addOverlappingNodes` pairs the reference
node with a reported node that is neither the reference itself nor owned by
the same body. -/
theorem addOverlappingNodes_sound {α : Type} (env : BroadPhaseEnv α)
    (ref : Int) (nodes : List Int) :
    ∀ p ∈ addOverlappingNodes env ref nodes,
      p.1 = ref ∧ p.2 ≠ ref ∧ env.bodyIdOf p.1 ≠ env.bodyIdOf p.2 ∧
      p.2 ∈ nodes := by
  induction nodes with
  | nil => intro p hp; simp [addOverlappingNodes] at hp
  | cons n rest ih =>
    intro p hp
    rw [addOverlappingNodes] at hp
    split at hp
    · next hne =>
      split at hp
      · next hbody =>
        rcases List.mem_cons.mp hp with he | he
        · subst he
          exact ⟨rfl, Ne.symm hne, hbody, List.mem_cons_self n rest⟩
        · obtain ⟨h1, h2, h3, h4⟩ := ih p he
          exact ⟨h1, h2, h3, List.mem_cons_of_mem n h4⟩
      · obtain ⟨h1, h2, h3, h4⟩ := ih p hp
        exact ⟨h1, h2, h3, List.mem_cons_of_mem n h4⟩
    · obtain ⟨h1, h2, h3, h4⟩ := ih p hp
      exact ⟨h1, h2, h3, List.mem_cons_of_mem n h4⟩

/-- Every reported node other than the reference and not owned by the same
body is notified. -/
theorem addOverlappingNodes_complete {α : Type} (env : BroadPhaseEnv α)
    (ref : Int) (nodes : List Int) :
    ∀ c ∈ nodes, ref ≠ c → env.bodyIdOf ref ≠ env.bodyIdOf c →
      (ref, c) ∈ addOverlappingNodes env ref nodes := by
  induction nodes with
  | nil => intro c hc; simp at hc
  | cons n rest ih =>
    intro c hc hne hbody
    rw [addOverlappingNodes]
    rcases List.mem_cons.mp hc with he | he
    · subst he
      rw [if_pos hne, if_pos hbody]
      exact List.mem_cons_self _ _
    · split
      · split
        · exact List.mem_cons_of_mem _ (ih c he hne hbody)
        · exact ih c he hne hbody
      · exact ih c he hne hbody

theorem computeOverlappingPairsLoop_queries {α : Type} (env : BroadPhaseEnv α)
    (movedShapes : List Int) :
    (computeOverlappingPairsLoop env movedShapes).1 =
      (movedShapes.filter (fun s => s != -1)).map env.getFatAABB := by
  induction movedShapes with
  | nil => rfl
  | cons s rest ih =>
    rw [computeOverlappingPairsLoop]
    rcases eq_or_ne s (-1) with he | hne
    · simp [he, ih]
    · simp only [if_neg hne]
      simp [List.filter_cons, hne, ih]

theorem computeOverlappingPairsLoop_sound {α : Type} (env : BroadPhaseEnv α)
    (movedShapes : List Int) :
    ∀ p ∈ (computeOverlappingPairsLoop env movedShapes).2,
      p.2 ≠ p.1 ∧ env.bodyIdOf p.1 ≠ env.bodyIdOf p.2 := by
  induction movedShapes with
  | nil => intro p hp; simp [computeOverlappingPairsLoop] at hp
  | cons s rest ih =>
    intro p hp
    rw [computeOverlappingPairsLoop] at hp
    split at hp
    · exact ih p hp
    · simp only [List.mem_append] at hp
      rcases hp with hp | hp
      · obtain ⟨h1, h2, h3, _⟩ := addOverlappingNodes_sound env s _ p hp
        exact ⟨h1 ▸ h2, h3⟩
      · exact ih p hp

theorem computeOverlappingPairsLoop_complete {α : Type} (env : BroadPhaseEnv α)
    (movedShapes : List Int) :
    ∀ s ∈ movedShapes, s ≠ -1 →
      ∀ c ∈ env.reportAllShapesOverlappingWithAABB (env.getFatAABB s),
        s ≠ c → env.bodyIdOf s ≠ env.bodyIdOf c →
          (s, c) ∈ (computeOverlappingPairsLoop env movedShapes).2 := by
  induction movedShapes with
  | nil => intro s hs; simp at hs
  | cons s0 rest ih =>
    intro s hs hsm c hc hne hbody
    rw [computeOverlappingPairsLoop]
    rcases List.mem_cons.mp hs with he | he
    · subst he
      rw [if_neg hsm]
      simp only [List.mem_append]
      exact Or.inl (addOverlappingNodes_complete env s _ c hc hne hbody)
    · split
      · exact ih s he hsm c hc hne hbody
      · simp only [List.mem_append]
        exact Or.inr (ih s he hsm c hc hne hbody)

/-- C8.  `computeOverlappingPairs` queries the spatial index exactly once
per moved shape (in order, against that shape's current fat bound), never
notifies the reference node itself nor a candidate owned by the same body,
notifies every other reported candidate, and leaves the moved set empty. -/
theorem claim_C8_compute_overlapping_pairs {α : Type} (env : BroadPhaseEnv α)
    (movedShapes : List Int) :
    (computeOverlappingPairs env movedShapes).1.1 =
      (movedShapes.filter (fun s => s != -1)).map env.getFatAABB ∧
    (∀ p ∈ (computeOverlappingPairs env movedShapes).1.2,
      p.2 ≠ p.1 ∧ env.bodyIdOf p.1 ≠ env.bodyIdOf p.2) ∧
    (∀ s ∈ movedShapes, s ≠ -1 →
      ∀ c ∈ env.reportAllShapesOverlappingWithAABB (env.getFatAABB s),
        s ≠ c → env.bodyIdOf s ≠ env.bodyIdOf c →
          (s, c) ∈ (computeOverlappingPairs env movedShapes).1.2) ∧
    (computeOverlappingPairs env movedShapes).2 = [] :=
  ⟨computeOverlappingPairsLoop_queries env movedShapes,
   computeOverlappingPairsLoop_sound env movedShapes,
   computeOverlappingPairsLoop_complete env movedShapes,
   rfl⟩

/-- Witness for C8: the theorem instantiated at a concrete environment and
moved set. -/
theorem claim_C8_compute_overlapping_pairs_witness :
    (computeOverlappingPairs
        { getFatAABB := fun i => i,
          reportAllShapesOverlappingWithAABB := fun _ => [0, 1, 2],
          testCollision := fun _ _ => true,
          bodyIdOf := fun i => if i ≤ 1 then 0 else i.toNat }
        [0, -1, 2]).1.1 =
      (([0, -1, 2] : List Int).filter (fun s => s != -1)).map (fun i => i) ∧
    (∀ p ∈ (computeOverlappingPairs
        { getFatAABB := fun i => i,
          reportAllShapesOverlappingWithAABB := fun _ => [0, 1, 2],
          testCollision := fun _ _ => true,
          bodyIdOf := fun i => if i ≤ 1 then 0 else i.toNat }
        [0, -1, 2]).1.2,
      p.2 ≠ p.1 ∧
      (if p.1 ≤ 1 then 0 else p.1.toNat) ≠ (if p.2 ≤ 1 then 0 else p.2.toNat)) ∧
    (∀ s ∈ ([0, -1, 2] : List Int), s ≠ -1 →
      ∀ c ∈ ([0, 1, 2] : List Int),
        s ≠ c → (if s ≤ 1 then 0 else s.toNat) ≠ (if c ≤ 1 then 0 else c.toNat) →
          (s, c) ∈ (computeOverlappingPairs
            { getFatAABB := fun i => i,
              reportAllShapesOverlappingWithAABB := fun _ => [0, 1, 2],
              testCollision := fun _ _ => true,
              bodyIdOf := fun i => if i ≤ 1 then 0 else i.toNat }
            [0, -1, 2]).1.2) ∧
    (computeOverlappingPairs
        { getFatAABB := fun i => i,
          reportAllShapesOverlappingWithAABB := fun _ => [0, 1, 2],
          testCollision := fun _ _ => true,
          bodyIdOf := fun i => if i ≤ 1 then 0 else i.toNat }
        [0, -1, 2]).2 = [] :=
  claim_C8_compute_overlapping_pairs _ _

/-! ## Pair activity (claim C7) -/

inductive BodyType where
  | STATIC
  | KINEMATIC
  | DYNAMIC
deriving DecidableEq, Repr

/-- The environment `computeIsPairActive` reads: the owning body of a proxy
shape (`mProxyShapeComponents.getBody`), the rigid-body component store
(`hasComponent`, `getBodyType`), the disabled flag
(`mCollisionBodyComponents.getIsEntityDisabled`) and the no-collision set
(`mNoCollisionPairs.contains`). -/
structure PairActiveEnv where
  getBody : Nat → Nat
  rigidHasComponent : Nat → Bool
  rigidGetBodyType : Nat → BodyType
  isEntityDisabled : Nat → Bool
  noCollisionContains : Nat × Nat → Bool

/-- Modelled from the spec: `computeBodiesIndexPair` (declared in
`OverlappingPairs.h`, not under `src/`) canonicalizes the unordered body
pair as the (smaller, larger) pair of entity indices. -/
def computeBodiesIndexPair (body1 body2 : Nat) : Nat × Nat :=
  (min body1 body2, max body1 body2)

/-- `OverlappingPairs::computeIsPairActive(shape1, shape2)`. -/
def computeIsPairActive (env : PairActiveEnv) (shape1 shape2 : ProxyShape) :
    Bool :=
  let body1Entity := env.getBody shape1.entity
  let body2Entity := env.getBody shape2.entity
  let isStaticRigidBody1 := env.rigidHasComponent body1Entity &&
    (env.rigidGetBodyType body1Entity == BodyType.STATIC)
  let isStaticRigidBody2 := env.rigidHasComponent body2Entity &&
    (env.rigidGetBodyType body2Entity == BodyType.STATIC)
  let isBody1Active := !env.isEntityDisabled body1Entity && !isStaticRigidBody1
  let isBody2Active := !env.isEntityDisabled body2Entity && !isStaticRigidBody2
  if !isBody1Active && !isBody2Active then false
  else if env.noCollisionContains
      (computeBodiesIndexPair body1Entity body2Entity) then false
  else true

/-- C7.  `computeIsPairActive` returns `false` exactly when both owning
bodies are inactive — each disabled, or a static rigid body — or when the
unordered body pair is in the no-collision set; otherwise it returns
`true`. -/
theorem claim_C7_pair_activity (env : PairActiveEnv)
    (shape1 shape2 : ProxyShape) :
    computeIsPairActive env shape1 shape2 = false ↔
    (((env.isEntityDisabled (env.getBody shape1.entity) = true ∨
        (env.rigidHasComponent (env.getBody shape1.entity) = true ∧
         env.rigidGetBodyType (env.getBody shape1.entity) = BodyType.STATIC)) ∧
      (env.isEntityDisabled (env.getBody shape2.entity) = true ∨
        (env.rigidHasComponent (env.getBody shape2.entity) = true ∧
         env.rigidGetBodyType (env.getBody shape2.entity) = BodyType.STATIC))) ∨
     env.noCollisionContains (computeBodiesIndexPair
       (env.getBody shape1.entity) (env.getBody shape2.entity)) = true) := by
  cases hd1 : env.isEntityDisabled (env.getBody shape1.entity) <;>
  cases hd2 : env.isEntityDisabled (env.getBody shape2.entity) <;>
  cases hh1 : env.rigidHasComponent (env.getBody shape1.entity) <;>
  cases hh2 : env.rigidHasComponent (env.getBody shape2.entity) <;>
  cases hnc : env.noCollisionContains (computeBodiesIndexPair
    (env.getBody shape1.entity) (env.getBody shape2.entity)) <;>
  simp [computeIsPairActive, hd1, hd2, hh1, hh2, hnc, beq_iff_eq]

/-! ## Broad-phase refresh of proxy shapes (claim C9) -/

/-- A displacement estimate (the `decimal` scalars and `Vector3` components
are modelled as rationals). -/
def vzero : ℚ × ℚ × ℚ := (0, 0, 0)

/-- `timeStep * linearVelocity` componentwise. -/
def vsmul (t : ℚ) (v : ℚ × ℚ × ℚ) : ℚ × ℚ × ℚ := (t * v.1, t * v.2.1, t * v.2.2)

/-- Modelled from the spec: `addMovedCollisionShape` (`BroadPhaseSystem.h`,
not under `src/`) appends the id to the moved array; removal elsewhere
overwrites entries with `-1`, which is why `computeOverlappingPairs` skips
`-1`. -/
def addMovedCollisionShape (moved : List Int) (broadPhaseId : Int) : List Int :=
  moved ++ [broadPhaseId]

/-- The environment of `updateProxyShapesComponents`: the proxy-shape
component arrays, the dynamics component store, the time step (`0` when the
world is not a dynamics world), the world-AABB recomputation (from the
body transform and the local-to-body transform) and the tree's
`updateObject` verdict. -/
structure BroadPhaseUpdateEnv (α : Type) where
  nbEnabledComponents : Nat
  broadPhaseIds : Nat → Int
  bodiesEntities : Nat → Nat
  hasDynamicsComponent : Nat → Bool
  linearVelocity : Nat → ℚ × ℚ × ℚ
  timeStep : ℚ
  computeAABBOf : Nat → α
  updateObject : Int → α → ℚ × ℚ × ℚ → Bool

/-- `BroadPhaseSystem::updateProxyShapeInternal(broadPhaseId, aabb,
displacement)`: forward to the tree's `updateObject`; when the shape was
removed and reinserted, add it to the moved set. -/
def updateProxyShapeInternal {α : Type} (env : BroadPhaseUpdateEnv α)
    (moved : List Int) (broadPhaseId : Int) (aabb : α)
    (displacement : ℚ × ℚ × ℚ) : List Int :=
  if env.updateObject broadPhaseId aabb displacement then
    addMovedCollisionShape moved broadPhaseId
  else moved

/-- The loop body of `BroadPhaseSystem::updateProxyShapesComponents` over a
list of component indices, threading the moved set and logging each
`updateObject` call as `(broadPhaseId, aabb, displacement)`. -/
def updateLoop {α : Type} (env : BroadPhaseUpdateEnv α) :
    List Nat → List Int → List (Int × α × (ℚ × ℚ × ℚ)) × List Int
  | [], moved => ([], moved)
  | i :: rest, moved =>
    let broadPhaseId := env.broadPhaseIds i
    if broadPhaseId = -1 then updateLoop env rest moved
    else
      let bodyEntity := env.bodiesEntities i
      let displacement := if env.hasDynamicsComponent bodyEntity then
          vsmul env.timeStep (env.linearVelocity bodyEntity)
        else vzero
      let aabb := env.computeAABBOf i
      let moved2 := updateProxyShapeInternal env moved broadPhaseId aabb
        displacement
      let r := updateLoop env rest moved2
      ((broadPhaseId, aabb, displacement) :: r.1, r.2)

/-- `BroadPhaseSystem::updateProxyShapesComponents(startIndex, endIndex)`:
clamp the range to the enabled components and process each component. -/
def updateProxyShapesComponents {α : Type} (env : BroadPhaseUpdateEnv α)
    (moved : List Int) (startIndex endIndex : Nat) :
    List (Int × α × (ℚ × ℚ × ℚ)) × List Int :=
  let s := min startIndex env.nbEnabledComponents
  let e := min endIndex env.nbEnabledComponents
  updateLoop env (List.range' s (e - s)) moved

theorem updateLoop_spec {α : Type} (env : BroadPhaseUpdateEnv α)
    (idxs : List Nat) (moved : List Int) :
    (updateLoop env idxs moved).1 =
      idxs.filterMap (fun i =>
        if env.broadPhaseIds i = -1 then none
        else some (env.broadPhaseIds i, env.computeAABBOf i,
          if env.hasDynamicsComponent (env.bodiesEntities i) then
            vsmul env.timeStep (env.linearVelocity (env.bodiesEntities i))
          else vzero)) ∧
    (updateLoop env idxs moved).2 =
      moved ++ idxs.filterMap (fun i =>
        if env.broadPhaseIds i = -1 then none
        else if env.updateObject (env.broadPhaseIds i) (env.computeAABBOf i)
            (if env.hasDynamicsComponent (env.bodiesEntities i) then
              vsmul env.timeStep (env.linearVelocity (env.bodiesEntities i))
            else vzero) then
          some (env.broadPhaseIds i)
        else none) := by
  induction idxs generalizing moved with
  | nil => simp [updateLoop]
  | cons i rest ih =>
    rw [updateLoop]
    rcases eq_or_ne (env.broadPhaseIds i) (-1) with he | hne
    · simp only [if_pos he, List.filterMap_cons, he, if_pos rfl]
      exact ih moved
    · simp only [if_neg hne, List.filterMap_cons, if_neg hne]
      refine ⟨?_, ?_⟩
      · rw [(ih _).1]
      · rw [(ih _).2]
        unfold updateProxyShapeInternal addMovedCollisionShape
        cases hu : env.updateObject (env.broadPhaseIds i) (env.computeAABBOf i)
            (if env.hasDynamicsComponent (env.bodiesEntities i) then
              vsmul env.timeStep (env.linearVelocity (env.bodiesEntities i))
            else vzero)
        · simp [hu]
        · simp [hu]

/-- C9.  For every enabled proxy-shape component refreshed by
`updateProxyShapesComponents` whose broad-phase id is not `-1`, exactly one
`updateObject` call is made, with the shape's recomputed world AABB and a
displacement equal to the time step times the body's linear velocity when
a dynamics component exists and zero otherwise; the shape's id is appended
to the moved set if and only if that call reports reinsertion. -/
theorem claim_C9_update_proxy_shapes {α : Type} (env : BroadPhaseUpdateEnv α)
    (moved : List Int) (startIndex endIndex : Nat) :
    (updateProxyShapesComponents env moved startIndex endIndex).1 =
      (List.range' (min startIndex env.nbEnabledComponents)
        (min endIndex env.nbEnabledComponents -
          min startIndex env.nbEnabledComponents)).filterMap (fun i =>
        if env.broadPhaseIds i = -1 then none
        else some (env.broadPhaseIds i, env.computeAABBOf i,
          if env.hasDynamicsComponent (env.bodiesEntities i) then
            vsmul env.timeStep (env.linearVelocity (env.bodiesEntities i))
          else vzero)) ∧
    (updateProxyShapesComponents env moved startIndex endIndex).2 =
      moved ++ (List.range' (min startIndex env.nbEnabledComponents)
        (min endIndex env.nbEnabledComponents -
          min startIndex env.nbEnabledComponents)).filterMap (fun i =>
        if env.broadPhaseIds i = -1 then none
        else if env.updateObject (env.broadPhaseIds i) (env.computeAABBOf i)
            (if env.hasDynamicsComponent (env.bodiesEntities i) then
              vsmul env.timeStep (env.linearVelocity (env.bodiesEntities i))
            else vzero) then
          some (env.broadPhaseIds i)
        else none) :=
  updateLoop_spec env _ moved

end RP3D
